import Mathlib

/-!
# Verification of the muslytics core against its specification

This file gives a shallow embedding, in Lean 4, of the algorithmic core of the
muslytics repository (an iTunes-library deduplicator and Spotify metadata
enricher written in Python 2), and settles a list of claims about it.

Embedding conventions:

* Python dicts are association lists `List (κ × β)`; dict iteration order is
  the list order.  Python `set`s are `List`s with a `Nodup` representation
  invariant; `set.remove`/`list.remove` is `eraseFirst`.
* Python exceptions (`KeyError`, `ValueError`, `IndexError`, `TypeError`) are
  modelled with `Except String`; a `.error` value means the Python code throws.
* Python floats are modelled as exact rationals (`ℚ`); `int` is `Int`.
* The Spotify web service is modelled as an oracle giving, per attempt, the
  outcome of the wrapped request.  The unbounded retry recursion of
  `_make_spotify_request` is modelled with a fuel parameter; returning
  `diverged` for every fuel value means the recursion never terminates.
* Regular expressions are embedded as backtracking matchers specialised to the
  exact patterns of the source, with Python semantics (leftmost match, greedy
  quantifiers with backtracking, alternatives tried left to right, a dot
  matching every character but a newline).
-/

set_option autoImplicit false
set_option maxRecDepth 16384

namespace Muslytics

/-! ## Association-list (Python dict) and set helpers -/

/-- Python dict lookup `d[k]` returning `none` where Python raises `KeyError`. -/
def dlookup {κ β : Type} [DecidableEq κ] (k : κ) : List (κ × β) → Option β
  | [] => none
  | (k', v) :: rest => if k' = k then some v else dlookup k rest

/-- Python dict assignment to an existing key `d[k] = v` (in-place update of
the entry; a no-op when the key is absent, which never happens at use sites). -/
def dupdate {κ β : Type} [DecidableEq κ] (k : κ) (v : β) : List (κ × β) → List (κ × β)
  | [] => []
  | (k', v') :: rest => if k' = k then (k', v) :: rest else (k', v') :: dupdate k v rest

/-- Python `del d[k]` (the entry is removed; use sites only delete present keys). -/
def ddelete {κ β : Type} [DecidableEq κ] (k : κ) : List (κ × β) → List (κ × β)
  | [] => []
  | (k', v') :: rest => if k' = k then rest else (k', v') :: ddelete k rest

/-- Python `list.remove(x)` / `set.remove(x)`: drop the first occurrence of
`x`.  Use sites check membership first where Python would raise. -/
def eraseFirst {α : Type} [DecidableEq α] (x : α) : List α → List α
  | [] => []
  | y :: rest => if y = x then rest else y :: eraseFirst x rest


/-! ## Python string and regex primitives

The source uses four regular expressions (Utils.py lines 16-18,
SpotifyTrackFinder.py line 33).  They are embedded as backtracking matchers
in continuation-passing style, specialised to those patterns: a matcher takes
the current suffix and a continuation receiving the suffix after the matched
part; greedy stars try the longest extension first and backtrack through the
continuation; alternatives are tried left to right; a dot matches any
character except a newline, as in Python without re.DOTALL. -/

/-- Python 2 `str` whitespace class `\s`: space, tab, LF, CR, FF, VT. -/
def isPyWs (c : Char) : Bool :=
  c = ' ' || c = '\t' || c = '\n' || c = '\r' || c = '\x0b' || c = '\x0c'

/-- Python 2 `str` word class `\w`: ASCII letters, digits, and underscore. -/
def isPyWord (c : Char) : Bool :=
  c.isAlphanum || c = '_'

/-- Python 2 `str.lower()`: ASCII lowercasing. -/
def pyLower (s : String) : String :=
  String.mk (s.toList.map Char.toLower)

/-- Python `str.strip()`: drop leading and trailing whitespace. -/
def pyStrip (s : String) : String :=
  String.mk (((s.toList.dropWhile (fun c => isPyWs c)).reverse.dropWhile
      (fun c => isPyWs c)).reverse)

/-- `str.split()` with no argument: maximal non-whitespace runs, no empties.
The accumulator holds the current token reversed. -/
def wsTokensAux : List Char → List Char → List (List Char)
  | acc, [] => if acc.isEmpty then [] else [acc.reverse]
  | acc, c :: rest =>
    if isPyWs c then
      if acc.isEmpty then wsTokensAux [] rest else acc.reverse :: wsTokensAux [] rest
    else
      wsTokensAux (c :: acc) rest

/-- The type of embedded-regex matchers. -/
abbrev RegexM : Type := List Char → (List Char → Option (List Char)) → Option (List Char)

/-- Literal text. -/
def mLit (lit : List Char) : RegexM := fun s k =>
  if lit.isPrefixOf s then k (s.drop lit.length) else none

/-- A single character satisfying a predicate (a character class). -/
def mCls (p : Char → Bool) : RegexM := fun s k =>
  match s with
  | [] => none
  | c :: rest => if p c then k rest else none

/-- Greedy `\s*` with backtracking: longest whitespace run first. -/
def mWsStar : List Char → (List Char → Option (List Char)) → Option (List Char)
  | [], k => k []
  | c :: rest, k =>
    if isPyWs c then (mWsStar rest k) <|> k (c :: rest) else k (c :: rest)

/-- Greedy `.*` with backtracking: anything but a newline, longest first. -/
def mDotStar : List Char → (List Char → Option (List Char)) → Option (List Char)
  | [], k => k []
  | c :: rest, k =>
    if c = '\n' then k (c :: rest) else (mDotStar rest k) <|> k (c :: rest)

/-- Sequencing of matchers. -/
def mSeq (a b : RegexM) : RegexM := fun s k => a s (fun s2 => b s2 k)

/-- Alternation, left alternative preferred. -/
def mAlt (a b : RegexM) : RegexM := fun s k => (a s k) <|> (b s k)

/-- Try to match a pattern at the head of the suffix; on success return the
rest of the input after the match. -/
def matchAt (p : RegexM) (s : List Char) : Option (List Char) :=
  p s some

/-- `ALBUM_NAME_PATTERN` (Utils.py line 16): the pattern
`\s*((\-\s*(Single|EP))|(\(.*Deluxe.*\))|(\[.*Deluxe.*\]))\s*`. -/
def albumNamePattern : RegexM :=
  mSeq mWsStar (mSeq
    (mAlt (mSeq (mLit ['-']) (mSeq mWsStar (mAlt (mLit "Single".toList) (mLit "EP".toList))))
      (mAlt (mSeq (mLit ['(']) (mSeq mDotStar (mSeq (mLit "Deluxe".toList)
              (mSeq mDotStar (mLit [')'])))))
        (mSeq (mLit ['[']) (mSeq mDotStar (mSeq (mLit "Deluxe".toList)
              (mSeq mDotStar (mLit [']'])))))))
    mWsStar)

/-- `FEAT_ARTIST_PATTERN` (Utils.py line 18): the pattern
`\s*(\(feat\..*\)|\-\s*feat\..*)\s*`. -/
def featArtistPattern : RegexM :=
  mSeq mWsStar (mSeq
    (mAlt (mSeq (mLit "(feat.".toList) (mSeq mDotStar (mLit [')'])))
      (mSeq (mLit ['-']) (mSeq mWsStar (mSeq (mLit "feat.".toList) mDotStar))))
    mWsStar)

/-- `MULT_ARTIST_PATTERN` (Utils.py line 17): the pattern `\s*[,&]\s*`. -/
def multArtistPattern : RegexM :=
  mSeq mWsStar (mSeq (mCls (fun c => c = ',' || c = '&')) mWsStar)

/-- `re.sub(pattern, repl, s)`: scan left to right; at each position try the
pattern, and on a match emit the replacement and continue after it, else emit
the character and move one right.  The fuel is the input length; every one of
these patterns consumes at least one character per match, so the fuel never
runs out before the scan ends. -/
def pySubAux (p : RegexM) (repl : List Char) : Nat → List Char → List Char
  | _, [] => []
  | 0, s => s
  | n + 1, c :: rest =>
    match matchAt p (c :: rest) with
    | some s2 => repl ++ pySubAux p repl n s2
    | none => c :: pySubAux p repl n rest

/-- `re.sub` on strings. -/
def pySub (p : RegexM) (repl : String) (s : String) : String :=
  String.mk (pySubAux p repl.toList s.toList.length s.toList)

/-- `re.split(pattern, s)`: like the sub scan, but matches separate tokens
(which may be empty, as in Python). -/
def pySplitAux (p : RegexM) : Nat → List Char → List Char → List (List Char)
  | _, acc, [] => [acc.reverse]
  | 0, acc, s => [acc.reverse ++ s]
  | n + 1, acc, c :: rest =>
    match matchAt p (c :: rest) with
    | some s2 => acc.reverse :: pySplitAux p n [] s2
    | none => pySplitAux p n (c :: acc) rest

/-- `re.split` on strings. -/
def pySplit (p : RegexM) (s : String) : List String :=
  (pySplitAux p s.toList.length [] s.toList).map String.mk

/-! ## Utils.py: album-name normalization and featured-artist stripping -/

/-- `get_album_name` (Utils.py lines 63-78): `name.strip()` followed by
`re.sub(ALBUM_NAME_PATTERN, \x27\x27, name)`. -/
def get_album_name (name : String) : String :=
  pySub albumNamePattern "" (pyStrip name)

/-- `strip_featured_artists` (Utils.py lines 81-90):
`FEAT_ARTIST_PATTERN.sub(\x27 \x27, name).strip()`. -/
def strip_featured_artists (name : String) : String :=
  pyStrip (pySub featArtistPattern " " name)

/-- `_remove_chars` (SpotifyTrackFinder.py lines 293-303):
`re.sub(SPECIAL_CHAR_MATCH, \x27\x27, string)` with
`SPECIAL_CHAR_MATCH = [^\s\w]+` — substituting every maximal run of
characters that are neither whitespace nor word characters with the empty
string, which is exactly filtering those characters out — followed by
`\x27 \x27.join(string.split())`, collapsing whitespace runs. -/
def remove_chars (s : String) : String :=
  String.intercalate " "
    ((wsTokensAux [] (s.toList.filter (fun c => isPyWs c || isPyWord c))).map String.mk)


/-! ## ITunesUtils: the track record

Source: src/muslytics/ITunesUtils.py lines 239-331.  A populated library
track carries these fields; `album_id` is the key (normalized album name,
release year) set by the XML parser before the track is added. -/

/-- `muslytics.ITunesUtils.ITunesTrack` (fields after construction and
population; `rating` is nullable, `plays` defaults to 0, `loved` to False,
`genre` to `UNKNOWN_GENRE = 0`). -/
structure ITunesTrack : Type where
  id : Nat
  name : String
  artists : List String
  rating : Option ℚ
  plays : Int
  loved : Bool
  genre : Int
  album_id : String × Int
  deriving DecidableEq

/-! ## SpotifyTrackFinder: the two-phase match test

Source: src/muslytics/SpotifyTrackFinder.py lines 251-321.  The code applies
the `unidecode` transliteration to the external (Spotify) side; `unidecode`
is the identity on ASCII input, and the definitions here take it as a
function parameter so that theorems hold for every transliteration. -/

/-- A Spotify track-search result as consumed by `_is_track_match`: the
result's display name and the name strings of its listed artists (each
possibly itself a delimited multi-artist string). -/
structure SearchResult : Type where
  name : String
  artists : List String
  deriving DecidableEq

/-- `_check_name_artist_matches` (lines 306-321): the pair (track names
identical, `len(i_artists - s_artists) < len(i_artists)`). -/
def check_name_artist_matches (i_name s_name : String)
    (i_artists s_artists : Finset String) : Bool × Bool :=
  (i_name == s_name, decide ((i_artists \ s_artists).card < i_artists.card))

/-- `_is_track_match` (lines 251-290): phase 1 on the lowercased name (the
external name first transliterated and stripped of featured artists) and the
lowercased artist sets (the external one the union over listed artists of
their split multi-artist names); if a dimension fails, it is relaxed with
`_remove_chars` and both dimensions are re-tested (an unrelaxed dimension
re-tests identically); the result is the conjunction after re-testing. -/
def is_track_match (ud : String → String) (i : ITunesTrack) (st : SearchResult) : Bool :=
  let i_name := pyLower i.name
  let i_artists : Finset String := (i.artists.map pyLower).toFinset
  let s_name := pyLower (ud (strip_featured_artists st.name))
  let s_artists : Finset String :=
    (st.artists.flatMap
      (fun a => (pySplit multArtistPattern a).map (fun n => pyLower (ud n)))).toFinset
  let p1 := check_name_artist_matches i_name s_name i_artists s_artists
  if p1.1 && p1.2 then
    true
  else
    let i_name2 := if p1.1 then i_name else remove_chars i_name
    let s_name2 := if p1.1 then s_name else remove_chars s_name
    let i_artists2 := if p1.2 then i_artists else i_artists.image remove_chars
    let s_artists2 := if p1.2 then s_artists else s_artists.image remove_chars
    let p2 := check_name_artist_matches i_name2 s_name2 i_artists2 s_artists2
    p2.1 && p2.2

/-- Removal of every character that is neither alphanumeric nor whitespace,
with whitespace collapsing — the phase-2 relaxation in the words of the
claim/spec.  This differs from the code's `_remove_chars`, whose `\\w` class
also keeps underscores. -/
def remove_alnum_ws (s : String) : String :=
  String.intercalate " "
    ((wsTokensAux [] (s.toList.filter (fun c => c.isAlphanum || isPyWs c))).map String.mk)

/-- The match test in the words of claim C5 (which follows the spec): exact
lowercased comparison in phase 1, the artist test as "at least one local
artist present in the external set", phase 2 re-testing only failed
dimensions after removing every character that is neither alphanumeric nor
whitespace; no transliteration is mentioned.  For comparison with
`is_track_match`. -/
def claimed_track_match (i : ITunesTrack) (st : SearchResult) : Bool :=
  let i_name := pyLower i.name
  let i_artists : Finset String := (i.artists.map pyLower).toFinset
  let s_name := pyLower (strip_featured_artists st.name)
  let s_artists : Finset String :=
    (st.artists.flatMap (fun a => (pySplit multArtistPattern a).map pyLower)).toFinset
  let nameP1 := i_name == s_name
  let artistP1 := decide (∃ a ∈ i_artists, a ∈ s_artists)
  let nameOk := nameP1 || (remove_alnum_ws i_name == remove_alnum_ws s_name)
  let artistOk := artistP1 ||
    decide (∃ a ∈ i_artists.image remove_alnum_ws, a ∈ s_artists.image remove_alnum_ws)
  nameOk && artistOk

/-- The match test in the words of claim C5 as amended: as claimed, except
that the phase-2 relaxation removes the characters outside the code's `\\w`
class (so underscores survive) and the external side passes through the
transliteration first. -/
def amended_track_match (ud : String → String) (i : ITunesTrack) (st : SearchResult) : Bool :=
  let i_name := pyLower i.name
  let i_artists : Finset String := (i.artists.map pyLower).toFinset
  let s_name := pyLower (ud (strip_featured_artists st.name))
  let s_artists : Finset String :=
    (st.artists.flatMap
      (fun a => (pySplit multArtistPattern a).map (fun n => pyLower (ud n)))).toFinset
  let nameP1 := i_name == s_name
  let artistP1 := decide (∃ a ∈ i_artists, a ∈ s_artists)
  let nameOk := nameP1 || (remove_chars i_name == remove_chars s_name)
  let artistOk := artistP1 ||
    decide (∃ a ∈ i_artists.image remove_chars, a ∈ s_artists.image remove_chars)
  nameOk && artistOk

/-- A local track whose name contains an underscore, on which the claimed
and actual phase-2 relaxations disagree. -/
def c5track : ITunesTrack :=
  ⟨1, "a_b", ["x"], Option.none, 0, false, 0, ("", 0)⟩

/-- An external result matching `c5track` under the claimed relaxation (the
underscore removed) but not under the code's (`\\w` keeps it). -/
def c5result : SearchResult :=
  ⟨"ab", ["x"]⟩


/-! ## ITunesUtils: the library graph and `remove_duplicates`

Source: src/muslytics/ITunesUtils.py lines 15-236.  The tracks, albums and
artists dicts are association lists in dict iteration order; Python sets are
`Nodup` lists.  The `genres` set of the library and of artists is not
modelled: `remove_duplicates` never reads or writes it.  The embedding
iterates duplicate identifiers (a Python set, arbitrary but fixed iteration
order) and `merged_tracks` (a dict) in first-appearance order; no property
stated below depends on that order. -/

/-- An album key: (normalized album name, release year), as built by the XML
parser. -/
abbrev AlbumId : Type := String × Int

/-- A duplicate key (`get_track_identifier`, lines 323-331): the pair
(display name, artist names joined in list order by ','). -/
abbrev Ident : Type := String × String

/-- `ITunesTrack.get_track_identifier` (lines 323-331). -/
def get_track_identifier (t : ITunesTrack) : Ident :=
  (t.name, String.intercalate "," t.artists)

/-- `muslytics.ITunesUtils.ITunesAlbum` (lines 209-236): name, year, member
track-id set and contributing artist-name set. -/
structure ITunesAlbum : Type where
  name : String
  year : Int
  tracks : List Nat
  artists : List String
  deriving DecidableEq

/-- `muslytics.ITunesUtils.ITunesArtist` (lines 175-206): name and
associated album-key set. -/
structure ITunesArtist : Type where
  name : String
  albums : List AlbumId
  deriving DecidableEq

/-- `muslytics.ITunesUtils.ITunesLibrary` (lines 15-23). -/
structure ITunesLibrary : Type where
  tracks : List (Nat × ITunesTrack)
  albums : List (AlbumId × ITunesAlbum)
  artists : List (String × ITunesArtist)
  deriving DecidableEq

/-- One step of building `identifier_to_index` (lines 76-82): append the
track id to its identifier's entry, or start a new entry. -/
def addToGroups (gs : List (Ident × List Nat)) (ident : Ident) (tid : Nat) :
    List (Ident × List Nat) :=
  match gs with
  | [] => [(ident, [tid])]
  | (k, l) :: rest =>
    if k = ident then (k, l ++ [tid]) :: rest else (k, l) :: addToGroups rest ident tid

/-- `identifier_to_index` after the first loop of `remove_duplicates`
(lines 76-82), iterating the tracks dict in order. -/
def buildGroups (ts : List (Nat × ITunesTrack)) : List (Ident × List Nat) :=
  ts.foldl (fun gs p => addToGroups gs (get_track_identifier p.2) p.1) []

/-- `duplicate_identifiers` (lines 78-79): the identifiers seen at least
twice, in first-appearance order. -/
def duplicateIdents (ts : List (Nat × ITunesTrack)) : List Ident :=
  ((buildGroups ts).filter (fun p => 2 ≤ p.2.length)).map Prod.fst

/-- The running state of the per-group loop (lines 88-116): `plays`,
`sum_rating`, `dup_count`, `loved` and `album_preference` (empty list or
`[track_id, album_id, tracks_in_album]`). -/
structure MergeState : Type where
  plays : Int
  sumRating : ℚ
  dupCount : Nat
  loved : Bool
  pref : Option (Nat × AlbumId × Nat)
  deriving DecidableEq

/-- The album-preference update for one track of a group (lines 95-110):
seed from the first track; for a later track from a different album look the
album up (`KeyError` if absent — the lookup happens before the year
comparison decides anything, as in the source) and switch on a strictly more
recent year (of the album key), or on an equal year and strictly more member
tracks. -/
def prefStep (albums : List (AlbumId × ITunesAlbum)) (t : ITunesTrack) :
    Option (Nat × AlbumId × Nat) → Except String (Option (Nat × AlbumId × Nat))
  | Option.none =>
    match dlookup t.album_id albums with
    | Option.none => Except.error "KeyError"
    | Option.some alb => Except.ok (Option.some (t.id, t.album_id, alb.tracks.length))
  | Option.some (pid, paid, pcount) =>
    if t.album_id = paid then
      Except.ok (Option.some (pid, paid, pcount))
    else
      match dlookup t.album_id albums with
      | Option.none => Except.error "KeyError"
      | Option.some alb =>
        if t.album_id.2 - paid.2 = 0 then
          if pcount < alb.tracks.length then
            Except.ok (Option.some (t.id, t.album_id, alb.tracks.length))
          else
            Except.ok (Option.some (pid, paid, pcount))
        else if 0 < t.album_id.2 - paid.2 then
          Except.ok (Option.some (t.id, t.album_id, alb.tracks.length))
        else
          Except.ok (Option.some (pid, paid, pcount))

/-- The per-group accumulation loop (lines 93-116): the preference update
followed by the `loved`/`plays`/rating accumulation. -/
def mergeLoop (albums : List (AlbumId × ITunesAlbum)) :
    List ITunesTrack → MergeState → Except String MergeState
  | [], st => Except.ok st
  | t :: rest, st =>
    match prefStep albums t st.pref with
    | Except.error e => Except.error e
    | Except.ok pref2 =>
      mergeLoop albums rest
        { plays := st.plays + t.plays
          sumRating := st.sumRating + (match t.rating with | Option.some r => r | Option.none => 0)
          dupCount := st.dupCount + (match t.rating with | Option.some _ => 1 | Option.none => 0)
          loved := st.loved || t.loved
          pref := pref2 }

/-- One entry of `merged_tracks` (line 120): the id of the track the group
merges onto and the merged plays/rating/loved. -/
structure MergedInfo : Type where
  survivor : Nat
  plays : Int
  rating : Option ℚ
  loved : Bool
  deriving DecidableEq

/-- Lines 84-120 for one duplicate group: fetch the group's tracks
(`KeyError` if an id is absent), run the accumulation loop from the zero
state, take `album_preference[0]` (`IndexError` on an empty group) and build
the merged info, the rating `sum_rating / dup_count` (Python float division,
modelled as exact rational division) or `None` when no member had one.
First, `getTracks`: the list comprehension fetching the group's tracks from
the tracks dict (line 87), `KeyError` if an id is absent. -/
def getTracks (tracks : List (Nat × ITunesTrack)) : List Nat → Except String (List ITunesTrack)
  | [] => Except.ok []
  | i :: rest =>
    match dlookup i tracks with
    | Option.none => Except.error "KeyError"
    | Option.some t =>
      match getTracks tracks rest with
      | Except.error e => Except.error e
      | Except.ok ts => Except.ok (t :: ts)

def mergeGroup (lib : ITunesLibrary) (ids : List Nat) : Except String MergedInfo :=
  match getTracks lib.tracks ids with
  | Except.error e => Except.error e
  | Except.ok ts =>
    match mergeLoop lib.albums ts ⟨0, 0, 0, false, Option.none⟩ with
    | Except.error e => Except.error e
    | Except.ok st =>
      match st.pref with
      | Option.none => Except.error "IndexError"
      | Option.some (sid, _, _) =>
        Except.ok ⟨sid, st.plays,
          if st.dupCount ≠ 0 then Option.some (st.sumRating / (st.dupCount : ℚ))
          else Option.none,
          st.loved⟩

/-- The second loop of `remove_duplicates` (lines 84-120) over the duplicate
identifiers: `merged_tracks` as an association list. -/
def computeMerged (lib : ITunesLibrary) (groups : List (Ident × List Nat)) :
    List Ident → Except String (List (Ident × MergedInfo))
  | [] => Except.ok []
  | ident :: rest =>
    match dlookup ident groups with
    | Option.none => Except.error "KeyError"
    | Option.some ids =>
      match mergeGroup lib ids with
      | Except.error e => Except.error e
      | Except.ok m =>
        match computeMerged lib groups rest with
        | Except.error e => Except.error e
        | Except.ok ms => Except.ok ((ident, m) :: ms)

/-- The record of one discarded track's cascade: the track id, its album
key, and the artist names iterated by the artist loop (empty when the album
did not empty). -/
structure CascadeEntry : Type where
  track : Nat
  album : AlbumId
  artistsVisited : List String
  deriving DecidableEq

/-- The artist loop (lines 147-155), run when a discarded track's album has
emptied.  Both membership removals are guarded in the source
(`if artist_name in self.artists`, `if album_id in albums`), so an artist
already removed, or an album key already absent from an artist's set, is
skipped — the loop is total and never throws. -/
def cascadeArtists (artists : List (String × ITunesArtist)) (album_id : AlbumId) :
    List String → List (String × ITunesArtist)
  | [] => artists
  | an :: rest =>
    let artists2 :=
      match dlookup an artists with
      | Option.none => artists
      | Option.some ar =>
        if album_id ∈ ar.albums then
          let na := eraseFirst album_id ar.albums
          if na = [] then ddelete an artists
          else dupdate an { ar with albums := na } artists
        else artists
    cascadeArtists artists2 album_id rest

/-- The album part of the cascade for one discarded track id, given its
album id (lines 139-158): delete the track, remove it from its album's
member set (`self.albums[album_id]` raises `KeyError` if the album is
absent, and `set.remove` raises `KeyError` if the id is not a member), and
if the album emptied run the artist loop and delete the album. -/
def cascadeTrackAlbum (lib : ITunesLibrary) (did : Nat) (album_id : AlbumId) :
    Except String (ITunesLibrary × CascadeEntry) :=
  match dlookup album_id lib.albums with
  | Option.none => Except.error "KeyError"
  | Option.some alb =>
    if did ∈ alb.tracks then
      if eraseFirst did alb.tracks = [] then
        Except.ok ({ tracks := ddelete did lib.tracks,
                     albums := ddelete album_id lib.albums,
                     artists := cascadeArtists lib.artists album_id alb.artists },
                   ⟨did, album_id, alb.artists⟩)
      else
        Except.ok ({ tracks := ddelete did lib.tracks,
                     albums := dupdate album_id
                       { alb with tracks := eraseFirst did alb.tracks } lib.albums,
                     artists := lib.artists },
                   ⟨did, album_id, []⟩)
    else
      Except.error "KeyError"

/-- Lines 137-158 for one discarded track id: read the track (`KeyError` if
absent) and its album id, then run the album part of the cascade. -/
def cascadeTrack (lib : ITunesLibrary) (did : Nat) :
    Except String (ITunesLibrary × CascadeEntry) :=
  match dlookup did lib.tracks with
  | Option.none => Except.error "KeyError"
  | Option.some t => cascadeTrackAlbum lib did t.album_id

/-- The cascade over all discarded ids of one group (lines 137-158). -/
def cascadeList (lib : ITunesLibrary) :
    List Nat → Except String (ITunesLibrary × List CascadeEntry)
  | [] => Except.ok (lib, [])
  | d :: rest =>
    match cascadeTrack lib d with
    | Except.error e => Except.error e
    | Except.ok (lib2, e) =>
      match cascadeList lib2 rest with
      | Except.error err => Except.error err
      | Except.ok (lib3, es) => Except.ok (lib3, e :: es)

/-- The `set_plays`/`set_rating`/`set_loved` calls of lines 133-135: the
survivor track with the merged statistics written onto it. -/
def mergeInto (t : ITunesTrack) (m : MergedInfo) : ITunesTrack :=
  { t with plays := m.plays, rating := m.rating, loved := m.loved }

/-- Lines 127-155 for one duplicate identifier: look its id list up, remove
the survivor from it (`list.remove`: `ValueError` if absent), write the
merged plays/rating/loved onto the survivor track (`KeyError` if absent),
then cascade over the remaining (discarded) ids. -/
def processGroup (lib : ITunesLibrary) (groups : List (Ident × List Nat))
    (ident : Ident) (m : MergedInfo) : Except String (ITunesLibrary × List CascadeEntry) :=
  match dlookup ident groups with
  | Option.none => Except.error "KeyError"
  | Option.some ids =>
    if m.survivor ∈ ids then
      match dlookup m.survivor lib.tracks with
      | Option.none => Except.error "KeyError"
      | Option.some t =>
        cascadeList
          { lib with tracks := dupdate m.survivor (mergeInto t m) lib.tracks }
          (eraseFirst m.survivor ids)
    else
      Except.error "ValueError"

/-- The third loop of `remove_duplicates` (lines 127-158) over
`merged_tracks`, concatenating the cascade log. -/
def applyMerged (lib : ITunesLibrary) (groups : List (Ident × List Nat)) :
    List (Ident × MergedInfo) → Except String (ITunesLibrary × List CascadeEntry)
  | [] => Except.ok (lib, [])
  | (ident, m) :: rest =>
    match processGroup lib groups ident m with
    | Except.error e => Except.error e
    | Except.ok (lib2, es1) =>
      match applyMerged lib2 groups rest with
      | Except.error e => Except.error e
      | Except.ok (lib3, es2) => Except.ok (lib3, es1 ++ es2)

/-- `ITunesLibrary.remove_duplicates` (ITunesUtils.py lines 59-169), paired
with the cascade log.  The logging calls and the removed-item counters are
pure bookkeeping and are not modelled. -/
def remove_duplicates (lib : ITunesLibrary) :
    Except String (ITunesLibrary × List CascadeEntry) :=
  match computeMerged lib (buildGroups lib.tracks) (duplicateIdents lib.tracks) with
  | Except.error e => Except.error e
  | Except.ok merged => applyMerged lib (buildGroups lib.tracks) merged

/-- The ids of the tracks of one duplicate group, in dict iteration order:
the tracks whose duplicate key equals the identifier. -/
def groupIds (lib : ITunesLibrary) (ident : Ident) : List Nat :=
  (lib.tracks.filter (fun p => decide (get_track_identifier p.2 = ident))).map Prod.fst

/-- The tracks of one duplicate group, in dict iteration order. -/
def groupTracks (lib : ITunesLibrary) (ident : Ident) : List ITunesTrack :=
  (lib.tracks.filter (fun p => decide (get_track_identifier p.2 = ident))).map Prod.snd

/-- The survivor-selection rule in the words of claim C2 (and the spec): the
first duplicate processed seeds the preference as (track, album); each
subsequent duplicate whose album differs from the currently preferred album
takes the preference if its album year (the year of the album key) is
strictly more recent, or if the years are equal and its album currently
holds strictly more tracks than the preferred album; the preference stays
unchanged if the candidate's year is older.  Written from the claim text,
for comparison with the fold of `remove_duplicates`. -/
def claimedSurvivorLoop (albums : List (AlbumId × ITunesAlbum)) :
    List ITunesTrack → Option (Nat × AlbumId) → Option (Nat × AlbumId)
  | [], pref => pref
  | t :: rest, Option.none => claimedSurvivorLoop albums rest (Option.some (t.id, t.album_id))
  | t :: rest, Option.some (pid, paid) =>
    if t.album_id = paid then
      claimedSurvivorLoop albums rest (Option.some (pid, paid))
    else
      let candCount : Nat := ((dlookup t.album_id albums).map (fun a => a.tracks.length)).getD 0
      let prefCount : Nat := ((dlookup paid albums).map (fun a => a.tracks.length)).getD 0
      if paid.2 < t.album_id.2 then
        claimedSurvivorLoop albums rest (Option.some (t.id, t.album_id))
      else if t.album_id.2 = paid.2 ∧ prefCount < candCount then
        claimedSurvivorLoop albums rest (Option.some (t.id, t.album_id))
      else
        claimedSurvivorLoop albums rest (Option.some (pid, paid))

/-- The claimed survivor of a group of duplicate tracks. -/
def claimedSurvivor (albums : List (AlbumId × ITunesAlbum)) (ts : List ITunesTrack) :
    Option Nat :=
  (claimedSurvivorLoop albums ts Option.none).map Prod.fst


/-- The correspondence between the code's album preference (which stores the
preferred album's track count at the moment the preference was taken) and
the claim's preference (which re-reads the count from the albums dict): the
same track and album, with the stored count equal to the current count —
phase B never mutates the albums dict, so the two never drift. -/
def PrefRel (albums : List (AlbumId × ITunesAlbum)) :
    Option (Nat × AlbumId × Nat) → Option (Nat × AlbumId) → Prop
  | Option.none, Option.none => True
  | Option.some (pid, paid, pcount), Option.some (pid', paid') =>
      pid = pid' ∧ paid = paid' ∧
      pcount = ((dlookup paid albums).map (fun a => a.tracks.length)).getD 0
  | _, _ => False

/-- The referential-consistency hypothesis of claim C3: every track's album
id names an album present in the library. -/
def RefConsistent (lib : ITunesLibrary) : Prop :=
  ∀ p ∈ lib.tracks, (dlookup (p.2 : ITunesTrack).album_id lib.albums).isSome

/-! ## SpotifyTrackFinder: the retry wrapper `_make_spotify_request`

Source: src/muslytics/SpotifyTrackFinder.py lines 26-34 and 90-110. -/

/-- `MAX_RETRY = 3` (SpotifyTrackFinder.py line 26). -/
def MAX_RETRY : Nat := 3

/-- `RETRY_CODES = [server_error, bad_gateway, service_unavailable]`,
the HTTP statuses 500, 502 and 503 (SpotifyTrackFinder.py lines 27-29). -/
def RETRY_CODES : List Nat := [500, 502, 503]

/-- `WAIT_CODE = too_many_requests`, HTTP status 429 (line 30). -/
def WAIT_CODE : Nat := 429

/-- `MAX_REQUEST_TRACKS = 100` (SpotifyTrackFinder.py line 34). -/
def MAX_REQUEST_TRACKS : Nat := 100

/-- One attempt of the deferred request: it returns a value, raises a
`SpotifyException` carrying an HTTP status, or raises some other exception. -/
inductive Attempt (α : Type) : Type
  | ok (v : α)
  | sErr (status : Nat)
  | exc
  deriving DecidableEq

/-- Outcome of `_make_spotify_request`: a value, the implicit `None` Python
returns when no branch applies, an exception propagating to the caller, or
divergence (the fuel bound was hit while the recursion was still running). -/
inductive ReqResult (α : Type) : Type
  | ok (v : α)
  | none
  | raised
  | diverged
  deriving DecidableEq

/-- `_make_spotify_request(deferred_request, retried)` (SpotifyTrackFinder.py
lines 90-110).  The oracle gives the outcome of the deferred request as a
function of the current `retried` counter (the counter increases by one on
every retry, on the transient-error path and on the rate-limit path alike, so
successive attempts see successive counter values).  The second component of
the result counts the total seconds slept in `sleep(5)` calls on the
rate-limit path.  Fuel bounds the recursion depth: `diverged` means the
recursion was still running after `fuel` attempts. -/
def make_spotify_request {α : Type} (oracle : Nat → Attempt α) :
    Nat → Nat → ReqResult α × Nat
  | _, 0 => (ReqResult.diverged, 0)
  | retried, fuel + 1 =>
    match oracle retried with
    | Attempt.ok v => (ReqResult.ok v, 0)
    | Attempt.exc => (ReqResult.raised, 0)
    | Attempt.sErr status =>
      if status ∈ RETRY_CODES ∧ retried < MAX_RETRY then
        make_spotify_request oracle (retried + 1) fuel
      else if status = WAIT_CODE then
        let r := make_spotify_request oracle (retried + 1) fuel
        (r.1, r.2 + 5)
      else
        (ReqResult.none, 0)

/-! ## SpotifyTrackFinder: `_get_audio_features`

Source: src/muslytics/SpotifyTrackFinder.py lines 186-236, plus the
`AUDIO_FEATURES` schema from src/muslytics/Utils.py lines 20-47 and the
`SpotifyTrack` holder from src/muslytics/SpotifyUtils.py. -/

/-- The fixed acoustic-feature schema (Utils.py lines 34-47). -/
def AUDIO_FEATURES : List String :=
  ["acousticness", "danceability", "duration_ms", "energy", "instrumentalness",
   "key", "liveness", "loudness", "mode", "speechiness", "tempo",
   "time_signature", "valence"]

/-- `muslytics.SpotifyUtils.SpotifyTrack`: a matched track carrying its
Spotify id, the originating iTunes id, and the `_features` dict into which
`__setattr__` multiplexes the acoustic attributes (holding the attributes set
so far; unset attributes are absent). -/
structure SpotifyTrack : Type where
  id : String
  i_id : Nat
  name : String
  popularity : Option ℚ
  features : List (String × ℚ)
  deriving DecidableEq

/-- One entry of an `audio_features` bulk response: per requested id either a
JSON null (`none`) or a dictionary of feature values. -/
abbrev FeatureResp : Type := Option (List (String × ℚ))

/-- A whole `audio_features` bulk response. -/
abbrev Resp : Type := List FeatureResp

/-- Outcome of `_get_audio_features` as a whole: a result list, an uncaught
exception propagating out of the function (aborting the run), or divergence
of the retry recursion. -/
inductive RunResult (α : Type) : Type
  | ok (v : α)
  | crashed
  | diverged
  deriving DecidableEq

/-- Fuel-indexed helper for `chunkIds` (structural recursion on the fuel so
that the kernel can evaluate it; every iteration consumes at least one list
element, so any fuel of at least the list's length gives the loop's value,
and the fuel-exhausted branch is unreachable at the use site). -/
def chunkIdsAux {α : Type} : Nat → List α → List (List α)
  | _, [] => []
  | 0, _ :: _ => []
  | n + 1, t :: rest =>
    (t :: rest).take MAX_REQUEST_TRACKS :: chunkIdsAux n ((t :: rest).drop MAX_REQUEST_TRACKS)

/-- The contiguous batching of the `while lower_index < num_tracks` loop
(SpotifyTrackFinder.py lines 203-230): each iteration takes the slice
`tracks[lower_index:upper_index]` with
`upper_index = min(lower_index + MAX_REQUEST_TRACKS, num_tracks)`. -/
def chunkIds {α : Type} (l : List α) : List (List α) :=
  chunkIdsAux l.length l

/-- Lookup in `track_dict = {track.id: track for track in tracks}`
(line 197): a dict comprehension keeps the last entry for a repeated key. -/
def track_dict_get (id : String) : List SpotifyTrack → Option SpotifyTrack
  | [] => none
  | t :: rest =>
    match track_dict_get id rest with
    | some r => some r
    | none => if t.id = id then some t else none

/-- Setting the 13 schema attributes of one track from one response entry
(lines 219-220).  If every feature key is present the track's `_features`
dict receives all 13 values; a missing key raises `KeyError`, which the
per-track handler catches, so the track is skipped (`none`). -/
def setFeatures (t : SpotifyTrack) (d : List (String × ℚ)) : Option SpotifyTrack :=
  if AUDIO_FEATURES.all (fun ft => (dlookup ft d).isSome) then
    some { t with features := AUDIO_FEATURES.filterMap (fun ft => (dlookup ft d).map (fun v => (ft, v))) }
  else
    none

/-- The `for id, features in zip(request_ids, audio_features)` binding loop
(lines 216-228).  `track_dict[id]` sits outside the inner handler, so a
missing id would raise an uncaught `KeyError` (`Except.error`); a null
response entry makes `features[feature]` raise `TypeError` and a missing
feature key raises `KeyError`, both caught per track, skipping that one
track. -/
def bindChunk (allTracks : List SpotifyTrack) :
    List (String × FeatureResp) → Except String (List SpotifyTrack)
  | [] => Except.ok []
  | (id, fr) :: rest => do
    let t ← (track_dict_get id allTracks).elim (Except.error "KeyError") Except.ok
    let rest' ← bindChunk allTracks rest
    match (fr : Option (List (String × ℚ))).bind (setFeatures t) with
    | some t' => Except.ok (t' :: rest')
    | none => Except.ok rest'

/-- `_get_audio_features` (lines 186-236), relative to a per-chunk request
oracle (`oracle chunkIndex` is the attempt oracle of that chunk's deferred
`spotify.audio_features(request_ids)` call).  Returns the function outcome
together with the log of bulk requests issued (each entry the `request_ids`
of one submitted chunk).  A `ReqResult.none` from the retry wrapper reaches
`zip(request_ids, audio_features)` as `None` and raises an uncaught
`TypeError` (`crashed`): only an exception raised by the request itself is
caught by the `except` around it, which logs and skips to the next chunk. -/
def gafAux (oracle : Nat → Nat → Attempt Resp) (fuel : Nat)
    (allTracks : List SpotifyTrack) :
    Nat → Nat → List SpotifyTrack → RunResult (List SpotifyTrack) × List (List String)
  | _, _, [] => (RunResult.ok [], [])
  | 0, _, _ :: _ => (RunResult.diverged, [])
  | n + 1, ci, t :: rest =>
    let chunk := (t :: rest).take MAX_REQUEST_TRACKS
    let request_ids := chunk.map (fun x => x.id)
    match (make_spotify_request (oracle ci) 0 fuel).1 with
    | ReqResult.diverged => (RunResult.diverged, [request_ids])
    | ReqResult.raised =>
      let r := gafAux oracle fuel allTracks n (ci + 1) ((t :: rest).drop MAX_REQUEST_TRACKS)
      (r.1, request_ids :: r.2)
    | ReqResult.none => (RunResult.crashed, [request_ids])
    | ReqResult.ok features =>
      match bindChunk allTracks (request_ids.zip features) with
      | Except.error _ => (RunResult.crashed, [request_ids])
      | Except.ok bound =>
        let r := gafAux oracle fuel allTracks n (ci + 1) ((t :: rest).drop MAX_REQUEST_TRACKS)
        (match r.1 with
         | RunResult.ok l => RunResult.ok (bound ++ l)
         | RunResult.crashed => RunResult.crashed
         | RunResult.diverged => RunResult.diverged,
         request_ids :: r.2)

/-- Entry point of the feature fetch over a list of matched tracks.  The
first (structural-recursion) fuel of `gafAux` is the track count, which every
loop iteration strictly decreases by at least one, so its exhaustion branch
is unreachable. -/
def get_audio_features (oracle : Nat → Nat → Attempt Resp) (fuel : Nat)
    (tracks : List SpotifyTrack) :
    RunResult (List SpotifyTrack) × List (List String) :=
  gafAux oracle fuel tracks tracks.length 0 tracks

/-- 250 concrete matched tracks, for the batching witness. -/
def c7tracks : List SpotifyTrack :=
  (List.range 250).map (fun i => ⟨toString i, i, "t", Option.none, []⟩)

/-- 101 concrete matched tracks: two chunks, of 100 and 1 tracks. -/
def c4tracks : List SpotifyTrack :=
  (List.range 101).map (fun i => ⟨toString i, i, "t", Option.none, []⟩)

/-- A service behavior for which the first chunk's bulk request persistently
fails with HTTP 500 while every later chunk would answer successfully. -/
def c4oracle : Nat → Nat → Attempt Resp := fun ci _ =>
  if ci = 0 then
    Attempt.sErr 500
  else
    Attempt.ok [some (AUDIO_FEATURES.map (fun ft => (ft, (0 : ℚ))))]

/-- The single track of the second chunk of `c4tracks`, as enriched by a
successful `audio_features` response binding all 13 schema attributes. -/
def c4enriched : SpotifyTrack :=
  ⟨"100", 100, "t", Option.none, AUDIO_FEATURES.map (fun ft => (ft, (0 : ℚ)))⟩

/-! ## Concrete libraries and instances for the claim witnesses -/

/-- Decidable equality of `Except` results, for evaluating concrete runs. -/
instance {ε α : Type} [DecidableEq ε] [DecidableEq α] : DecidableEq (Except ε α) := fun x y =>
  match x, y with
  | Except.error a, Except.error b =>
    match decEq a b with
    | Decidable.isTrue h => Decidable.isTrue (congrArg Except.error h)
    | Decidable.isFalse h => Decidable.isFalse (fun hc => h (Except.error.inj hc))
  | Except.error _, Except.ok _ => Decidable.isFalse (fun hc => Except.noConfusion hc)
  | Except.ok _, Except.error _ => Decidable.isFalse (fun hc => Except.noConfusion hc)
  | Except.ok a, Except.ok b =>
    match decEq a b with
    | Decidable.isTrue h => Decidable.isTrue (congrArg Except.ok h)
    | Decidable.isFalse h => Decidable.isFalse (fun hc => h (Except.ok.inj hc))

/-- A two-track library whose tracks form one duplicate group: both are
named "Song" by artist "A", on the 2000 album "X" and the 2010 album "Y"
respectively. -/
def dupLib : ITunesLibrary :=
  { tracks := [(1, ⟨1, "Song", ["A"], Option.none, 2906, false, 0, ("X", 2000)⟩),
               (2, ⟨2, "Song", ["A"], Option.none, 94, true, 0, ("Y", 2010)⟩)],
    albums := [(("X", 2000), ⟨"X", 2000, [1], ["A"]⟩),
               (("Y", 2010), ⟨"Y", 2010, [2], ["A"]⟩)],
    artists := [("A", ⟨"A", [("X", 2000), ("Y", 2010)]⟩)] }

/-- The library `remove_duplicates` leaves behind on `dupLib`: track 2 (the
more recent album's track) survives with the merged statistics, track 1,
the emptied album "X" and its key in artist "A"'s set are removed. -/
def dupLib2 : ITunesLibrary :=
  { tracks := [(2, ⟨2, "Song", ["A"], Option.none, 3000, true, 0, ("Y", 2010)⟩)],
    albums := [(("Y", 2010), ⟨"Y", 2010, [2], ["A"]⟩)],
    artists := [("A", ⟨"A", [("Y", 2010)]⟩)] }

/-- The cascade log of `remove_duplicates dupLib`: track 1 discarded,
emptying album "X" and visiting artist "A". -/
def dupLog : List CascadeEntry := [⟨1, ("X", 2000), ["A"]⟩]

/-- A library in which artist "B" is already absent from the artists dict
although album "Z" still lists it: the state an earlier cascade step of the
same pass can leave behind. -/
def c9lib : ITunesLibrary :=
  { tracks := [(5, ⟨5, "T", ["B"], Option.none, 0, false, 0, ("Z", 1999)⟩)],
    albums := [(("Z", 1999), ⟨"Z", 1999, [5], ["B"]⟩)],
    artists := [] }

/-- A referentially consistent library (no tracks, so vacuously) holding
one album whose member set is already empty: `remove_duplicates` returns
it unchanged. -/
def c3lib : ITunesLibrary :=
  { tracks := [],
    albums := [(("E", 2000), ⟨"E", 2000, [], []⟩)],
    artists := [] }

end Muslytics


namespace Muslytics

/-- C8: on a "too many requests" (HTTP 429) response the fetcher sleeps for
the fixed 5-second cool-down and retries the same request; the branch is taken
no matter how large the retry counter already is, so against a service that
persistently answers 429 the recursion runs forever: for every fuel bound it
is still running (`diverged`), having slept 5 seconds per attempt. -/
theorem c8_rate_limit_retry_unbounded :
    (∀ (α : Type) (oracle : Nat → Attempt α) (retried fuel : Nat),
        oracle retried = Attempt.sErr WAIT_CODE →
        make_spotify_request oracle retried (fuel + 1) =
          ((make_spotify_request oracle (retried + 1) fuel).1,
           (make_spotify_request oracle (retried + 1) fuel).2 + 5)) ∧
    (∀ retried fuel : Nat,
        make_spotify_request (fun _ => Attempt.sErr WAIT_CODE : Nat → Attempt Unit)
            retried fuel = (ReqResult.diverged, 5 * fuel)) := by
  constructor
  · intro α oracle retried fuel ho
    simp only [make_spotify_request, ho]
    have h1 : ¬ (WAIT_CODE ∈ RETRY_CODES ∧ retried < MAX_RETRY) := by
      intro h
      exact absurd h.1 (by decide)
    rw [if_neg h1]
    simp
  · intro retried fuel
    induction fuel generalizing retried with
    | zero => simp [make_spotify_request]
    | succ n ih =>
      simp only [make_spotify_request]
      have h1 : ¬ (WAIT_CODE ∈ RETRY_CODES ∧ retried < MAX_RETRY) := by
        intro h
        exact absurd h.1 (by decide)
      rw [if_neg h1]
      simp only [if_pos trivial, ih (retried + 1)]
      exact congrArg (Prod.mk ReqResult.diverged) (by ring)

/-- Witness for C8: both parts applied at concrete inputs.  With seven units
of fuel the persistently throttling service leaves the request still running
after 35 slept seconds, and a single 429 step unfolds to a 5-second sleep
followed by the same request with the counter advanced past `MAX_RETRY`. -/
theorem c8_rate_limit_retry_unbounded_witness :
    make_spotify_request (fun _ => Attempt.sErr WAIT_CODE : Nat → Attempt Unit) 0 7 =
      (ReqResult.diverged, 5 * 7) ∧
    make_spotify_request (fun _ => Attempt.sErr WAIT_CODE : Nat → Attempt Unit) 5 (1 + 1) =
      ((make_spotify_request (fun _ => Attempt.sErr WAIT_CODE : Nat → Attempt Unit) 6 1).1,
       (make_spotify_request (fun _ => Attempt.sErr WAIT_CODE : Nat → Attempt Unit) 6 1).2 + 5) :=
  ⟨c8_rate_limit_retry_unbounded.2 0 7,
   c8_rate_limit_retry_unbounded.1 Unit (fun _ => Attempt.sErr WAIT_CODE) 5 1 rfl⟩

/-- C10: `_make_spotify_request` silently evaluates to `None` (without
raising) whenever the wrapped call raises a `SpotifyException` whose status is
a transient retry code but the retry counter has already reached
`MAX_RETRY = 3`, and likewise whenever the status is neither a transient retry
code nor the 429 rate-limit code: no branch of the handler applies and the
Python function falls off its end. -/
theorem c10_exhausted_or_unknown_status_returns_none
    (α : Type) (oracle : Nat → Attempt α) (retried fuel status : Nat)
    (hfuel : 1 ≤ fuel)
    (ho : oracle retried = Attempt.sErr status)
    (hs : (status ∈ RETRY_CODES ∧ MAX_RETRY ≤ retried) ∨
          (status ∉ RETRY_CODES ∧ status ≠ WAIT_CODE)) :
    (make_spotify_request oracle retried fuel).1 = ReqResult.none := by
  obtain ⟨fuel, rfl⟩ : ∃ k, fuel = k + 1 := ⟨fuel - 1, by omega⟩
  simp only [make_spotify_request, ho]
  rcases hs with ⟨hmem, hge⟩ | ⟨hmem, hne⟩
  · have h1 : ¬ (status ∈ RETRY_CODES ∧ retried < MAX_RETRY) := by
      intro h
      omega
    have h2 : status ≠ WAIT_CODE := by
      intro h
      rw [h] at hmem
      exact absurd hmem (by decide)
    rw [if_neg h1, if_neg h2]
  · have h1 : ¬ (status ∈ RETRY_CODES ∧ retried < MAX_RETRY) := by
      intro h
      exact hmem h.1
    rw [if_neg h1, if_neg hne]

/-- Witness for C10: a deferred request that keeps answering HTTP 500 after
the counter reached 3 yields `None`, and so does a request that answers an
unhandled status (404) on its first attempt. -/
theorem c10_exhausted_or_unknown_status_returns_none_witness :
    (make_spotify_request (fun _ => Attempt.sErr 500 : Nat → Attempt Unit) 3 1).1 =
      ReqResult.none ∧
    (make_spotify_request (fun _ => Attempt.sErr 404 : Nat → Attempt Unit) 0 9).1 =
      ReqResult.none :=
  ⟨c10_exhausted_or_unknown_status_returns_none Unit (fun _ => Attempt.sErr 500) 3 1 500
      (by omega) rfl (Or.inl (by decide)),
   c10_exhausted_or_unknown_status_returns_none Unit (fun _ => Attempt.sErr 404) 0 9 404
      (by omega) rfl (Or.inr (by decide))⟩

end Muslytics

namespace Muslytics

theorem chunkIdsAux_congr {α : Type} :
    ∀ (n m : Nat) (l : List α), l.length ≤ n → l.length ≤ m →
      chunkIdsAux n l = chunkIdsAux m l := by
  intro n
  induction n with
  | zero =>
    intro m l hn _
    have : l = [] := List.eq_nil_of_length_eq_zero (Nat.le_zero.mp hn)
    subst this
    cases m <;> rfl
  | succ n ih =>
    intro m l hn hm
    match l with
    | [] => cases m <;> rfl
    | t :: rest =>
      match m with
      | 0 => simp at hm
      | m + 1 =>
        simp only [chunkIdsAux]
        rw [ih m ((t :: rest).drop MAX_REQUEST_TRACKS)
            (by simp [MAX_REQUEST_TRACKS] at hn ⊢; omega)
            (by simp [MAX_REQUEST_TRACKS] at hm ⊢; omega)]

theorem chunkIds_cons {α : Type} (t : α) (rest : List α) :
    chunkIds (t :: rest) =
      (t :: rest).take MAX_REQUEST_TRACKS :: chunkIds ((t :: rest).drop MAX_REQUEST_TRACKS) := by
  show chunkIdsAux (rest.length + 1) (t :: rest) = _
  simp only [chunkIdsAux]
  rw [chunkIdsAux_congr rest.length ((t :: rest).drop MAX_REQUEST_TRACKS).length
      ((t :: rest).drop MAX_REQUEST_TRACKS)
      (by simp only [List.length_drop, List.length_cons, MAX_REQUEST_TRACKS]; omega) le_rfl]
  rfl

theorem chunkIds_flat {α : Type} (l : List α) : (chunkIds l).flatten = l := by
  suffices h : ∀ (n : Nat) (l : List α), l.length ≤ n → (chunkIdsAux n l).flatten = l from
    h l.length l le_rfl
  intro n
  induction n with
  | zero =>
    intro l hn
    have : l = [] := List.eq_nil_of_length_eq_zero (Nat.le_zero.mp hn)
    subst this
    rfl
  | succ n ih =>
    intro l hn
    match l with
    | [] => rfl
    | t :: rest =>
      simp only [chunkIdsAux, List.flatten_cons]
      rw [ih _ (by simp [MAX_REQUEST_TRACKS] at hn ⊢; omega)]
      exact List.take_append_drop _ _

theorem chunkIds_mem {α : Type} (l : List α) (c : List α) (hc : c ∈ chunkIds l) :
    c ≠ [] ∧ c.length ≤ MAX_REQUEST_TRACKS := by
  suffices h : ∀ (n : Nat) (l : List α), l.length ≤ n → ∀ c ∈ chunkIdsAux n l,
      c ≠ [] ∧ c.length ≤ MAX_REQUEST_TRACKS from h l.length l le_rfl c hc
  intro n
  induction n with
  | zero =>
    intro l hn c hc
    have : l = [] := List.eq_nil_of_length_eq_zero (Nat.le_zero.mp hn)
    subst this
    simp [chunkIdsAux] at hc
  | succ n ih =>
    intro l hn c hc
    match l with
    | [] => simp [chunkIdsAux] at hc
    | t :: rest =>
      simp only [chunkIdsAux] at hc
      rcases List.mem_cons.mp hc with h | h
      · subst h
        refine ⟨by simp [MAX_REQUEST_TRACKS], by simp⟩
      · exact ih _ (by simp [MAX_REQUEST_TRACKS] at hn ⊢; omega) c h

theorem chunkIds_count {α : Type} (l : List α) :
    (chunkIds l).length = (l.length + 99) / 100 := by
  suffices h : ∀ (n : Nat) (l : List α), l.length ≤ n →
      (chunkIdsAux n l).length = (l.length + 99) / 100 from h l.length l le_rfl
  intro n
  induction n with
  | zero =>
    intro l hn
    have : l = [] := List.eq_nil_of_length_eq_zero (Nat.le_zero.mp hn)
    subst this
    simp [chunkIdsAux]
  | succ n ih =>
    intro l hn
    match l with
    | [] => simp [chunkIdsAux]
    | t :: rest =>
      simp only [chunkIdsAux, List.length_cons]
      rw [ih _ (by simp [MAX_REQUEST_TRACKS] at hn ⊢; omega)]
      simp only [List.length_drop, MAX_REQUEST_TRACKS, List.length_cons]
      omega

theorem chunkIds_map {α β : Type} (f : α → β) (l : List α) :
    chunkIds (l.map f) = (chunkIds l).map (List.map f) := by
  suffices h : ∀ (n : Nat) (l : List α),
      chunkIdsAux n (l.map f) = (chunkIdsAux n l).map (List.map f) by
    show chunkIdsAux (l.map f).length (l.map f) = _
    rw [List.length_map]
    exact h l.length l
  intro n
  induction n with
  | zero => intro l; cases l <;> rfl
  | succ n ih =>
    intro l
    match l with
    | [] => rfl
    | t :: rest =>
      show chunkIdsAux (n + 1) (f t :: rest.map f) = _
      simp only [chunkIdsAux]
      rw [show (f t :: List.map f rest) = (t :: rest).map f from rfl,
          ← List.map_take, ← List.map_drop, ih]
      simp

theorem gafAux_log (oracle : Nat → Nat → Attempt Resp) (fuel : Nat)
    (allTracks : List SpotifyTrack) :
    ∀ (n ci : Nat) (rem : List SpotifyTrack), rem.length ≤ n →
      (∃ v, (gafAux oracle fuel allTracks n ci rem).1 = RunResult.ok v) →
      (gafAux oracle fuel allTracks n ci rem).2 = chunkIds (rem.map (fun t => t.id)) := by
  intro n
  induction n with
  | zero =>
    intro ci rem hn h
    have : rem = [] := List.eq_nil_of_length_eq_zero (Nat.le_zero.mp hn)
    subst this
    rfl
  | succ n ih =>
    intro ci rem hn h
    match rem with
    | [] => rfl
    | t :: rest =>
      obtain ⟨v, hv⟩ := h
      have hlen : ((t :: rest).drop MAX_REQUEST_TRACKS).length ≤ n := by
        simp [MAX_REQUEST_TRACKS] at hn ⊢
        omega
      rcases hres : (make_spotify_request (oracle ci) 0 fuel).1 with w | _ | _ | _
      · -- ok features
        rw [gafAux] at hv ⊢
        simp only [hres] at hv ⊢
        rcases hbind : bindChunk allTracks
            ((((t :: rest).take MAX_REQUEST_TRACKS).map (fun x => x.id)).zip w) with e | bound
        · rw [hbind] at hv
          simp at hv
        · rw [hbind] at hv ⊢
          simp only at hv ⊢
          have hr : ∃ u, (gafAux oracle fuel allTracks n (ci + 1)
              ((t :: rest).drop MAX_REQUEST_TRACKS)).1 = RunResult.ok u := by
            rcases hrr : (gafAux oracle fuel allTracks n (ci + 1)
                ((t :: rest).drop MAX_REQUEST_TRACKS)).1 with u | _ | _
            · exact ⟨u, rfl⟩
            · rw [hrr] at hv; simp at hv
            · rw [hrr] at hv; simp at hv
          rw [ih (ci + 1) _ hlen hr, chunkIds_map, chunkIds_map, chunkIds_cons, List.map_cons]
      · -- implicit None: crashed
        rw [gafAux] at hv
        simp only [hres] at hv
        exact absurd hv (by simp)
      · -- raised: skip chunk
        rw [gafAux] at hv ⊢
        simp only [hres] at hv ⊢
        rw [ih (ci + 1) _ hlen ⟨v, hv⟩, chunkIds_map, chunkIds_map, chunkIds_cons, List.map_cons]
      · -- diverged
        rw [gafAux] at hv
        simp only [hres] at hv
        exact absurd hv (by simp)



/-- C7: the feature fetcher partitions the matched tracks into contiguous
chunks of at most `MAX_REQUEST_TRACKS = 100` tracks, preserving the original
order (the chunks flatten back to the original id list), and issues exactly
one bulk request per chunk — ceiling(n/100) requests in total for n tracks —
and for 250 tracks that is exactly 3 requests of sizes 100, 100 and 50, in
original order.  Stated for completed runs: a run aborted by the
`zip(request_ids, None)` crash (see C4) stops issuing requests early. -/
theorem c7_contiguous_batching (oracle : Nat → Nat → Attempt Resp) (fuel : Nat)
    (tracks : List SpotifyTrack) (v : List SpotifyTrack)
    (hok : (get_audio_features oracle fuel tracks).1 = RunResult.ok v) :
    (get_audio_features oracle fuel tracks).2 = chunkIds (tracks.map (fun t => t.id)) ∧
    (chunkIds (tracks.map (fun t => t.id))).flatten = tracks.map (fun t => t.id) ∧
    (∀ c ∈ chunkIds (tracks.map (fun t => t.id)), c ≠ [] ∧ c.length ≤ MAX_REQUEST_TRACKS) ∧
    (chunkIds (tracks.map (fun t => t.id))).length = (tracks.length + 99) / 100 ∧
    (chunkIds (List.range 250)).map List.length = [100, 100, 50] := by
  refine ⟨gafAux_log oracle fuel tracks tracks.length 0 tracks le_rfl ⟨v, hok⟩, chunkIds_flat _,
      fun c hc => chunkIds_mem _ c hc, ?_, by decide⟩
  rw [chunkIds_count]
  simp

/-- Witness for C7 at 250 concrete tracks: every bulk request raises a
non-Spotify exception, so every chunk is logged, skipped, and the run
completes with an empty result. -/
theorem c7_contiguous_batching_witness :
    (get_audio_features (fun _ _ => Attempt.exc) 1 c7tracks).2 =
      chunkIds (c7tracks.map (fun t => t.id)) :=
  (c7_contiguous_batching (fun _ _ => Attempt.exc) 1 c7tracks [] (by decide)).1

/-- C4 (code bug): when one chunk's bulk request keeps failing with a
transient 500 error until `MAX_RETRY` is exceeded, `_make_spotify_request`
returns `None` instead of raising, so the `except` handler around the request
never fires and `zip(request_ids, None)` raises an uncaught `TypeError`,
aborting the entire run.  Concretely, with 101 tracks (two chunks) whose
first chunk's request persistently fails: the run crashes, only the first
chunk's bulk request is ever issued, the retry wrapper indeed evaluated to
`None`, and — had processing reached it — the second chunk would have been
enriched successfully, as the last conjunct shows by running the loop from
chunk index 1 on the remaining track. -/
theorem c4_transient_failure_aborts_whole_run :
    (get_audio_features c4oracle 10 c4tracks).1 = RunResult.crashed ∧
    (get_audio_features c4oracle 10 c4tracks).2 =
      [(c4tracks.take MAX_REQUEST_TRACKS).map (fun t => t.id)] ∧
    (make_spotify_request (c4oracle 0) 0 10).1 = ReqResult.none ∧
    (gafAux c4oracle 10 c4tracks 1 1 (c4tracks.drop MAX_REQUEST_TRACKS)).1 =
      RunResult.ok [c4enriched] := by
  decide


end Muslytics

namespace Muslytics

/-- Counterexample for C6: the claim asserts that album-name normalization
maps "Hamilton (Original Broadway Cast Recording)" to "Hamilton" and strips
any parenthetical/bracketed qualifier, and that it is idempotent on every
input.  Neither holds of `ALBUM_NAME_PATTERN`: the pattern only matches
parentheticals and bracketed qualifiers containing "Deluxe", so the Hamilton
qualifier is not stripped, and normalization is not idempotent: one pass over
"- - SingleEP" removes " - Single" leaving "-EP", which a second pass removes
entirely. -/
theorem c6_album_name_counterexample :
    get_album_name "Hamilton (Original Broadway Cast Recording)" ≠ "Hamilton" ∧
    get_album_name "Hamilton (Original Broadway Cast Recording)" =
      "Hamilton (Original Broadway Cast Recording)" ∧
    get_album_name "- - SingleEP" = "-EP" ∧
    get_album_name "-EP" = "" ∧
    get_album_name (get_album_name "- - SingleEP") ≠ get_album_name "- - SingleEP" := by
  decide

/-- C6 as amended: `get_album_name` strips "- Single"/"- EP" suffixes and
parenthetical or bracketed qualifiers containing "Deluxe"; it maps
"Wild Card - Single" to "Wild Card" and leaves
"Hamilton (Original Broadway Cast Recording)" unchanged (its qualifier lacks
"Deluxe"); re-applying it to each of these outputs returns them unchanged,
although it is not idempotent on every string. -/
theorem c6_album_name_normalization :
    get_album_name "Wild Card - Single" = "Wild Card" ∧
    get_album_name " Speak Now - EP " = "Speak Now" ∧
    get_album_name "Lover (Deluxe)" = "Lover" ∧
    get_album_name "Lover [Deluxe Edition]" = "Lover" ∧
    get_album_name "Hamilton (Original Broadway Cast Recording)" =
      "Hamilton (Original Broadway Cast Recording)" ∧
    get_album_name (get_album_name "Wild Card - Single") =
      get_album_name "Wild Card - Single" ∧
    get_album_name (get_album_name "Lover (Deluxe)") = get_album_name "Lover (Deluxe)" ∧
    get_album_name (get_album_name "Lover [Deluxe Edition]") =
      get_album_name "Lover [Deluxe Edition]" ∧
    get_album_name (get_album_name "Hamilton (Original Broadway Cast Recording)") =
      get_album_name "Hamilton (Original Broadway Cast Recording)" := by
  decide

end Muslytics

namespace Muslytics

/-- The two formulations of the artist test are equivalent: the set of local
artists absent from the external set is strictly smaller than the local set
iff some local artist is present in the external set. -/
theorem sdiff_card_lt_iff {α : Type} [DecidableEq α] (A B : Finset α) :
    (A \ B).card < A.card ↔ ∃ a ∈ A, a ∈ B := by
  constructor
  · intro h
    by_contra hc
    push_neg at hc
    have he : A \ B = A :=
      Finset.sdiff_eq_self_iff_disjoint.mpr (Finset.disjoint_left.mpr hc)
    rw [he] at h
    exact lt_irrefl _ h
  · rintro ⟨a, haA, haB⟩
    apply Finset.card_lt_card
    rw [Finset.ssubset_iff_of_subset Finset.sdiff_subset]
    exact ⟨a, haA, fun hm => (Finset.mem_sdiff.mp hm).2 haB⟩

/-- Boolean form of `sdiff_card_lt_iff`. -/
theorem decide_sdiff_card_lt {α : Type} [DecidableEq α] (A B : Finset α) :
    decide ((A \ B).card < A.card) = decide (∃ a ∈ A, a ∈ B) :=
  decide_eq_decide.mpr (sdiff_card_lt_iff A B)

/-- C5 as amended: the match test accepts iff both dimensions pass, where
phase 1 compares the lowercased names (the external one transliterated and
stripped of featured-artist suffixes) for identity and tests that at least
one lowercased local artist is present in the lowercased external artist set
(equivalently, the set-difference cardinality test of the code); phase 2
re-tests only the dimensions that failed phase 1 after removing, on both
sides of that dimension, every character outside the code's word class
(alphanumeric or underscore) and whitespace, and collapsing repeated
whitespace; a dimension that passed phase 1 still passes, and the candidate
is accepted iff both dimensions hold after phases 1-2. -/
theorem c5_two_phase_match (ud : String → String) (i : ITunesTrack) (st : SearchResult) :
    is_track_match ud i st = amended_track_match ud i st := by
  unfold is_track_match amended_track_match check_name_artist_matches
  dsimp only
  simp only [decide_sdiff_card_lt]
  cases hn : (pyLower i.name == pyLower (ud (strip_featured_artists st.name))) with
  | false =>
    cases ha : decide (∃ a ∈ (i.artists.map pyLower).toFinset,
        a ∈ (st.artists.flatMap
          (fun a => (pySplit multArtistPattern a).map (fun n => pyLower (ud n)))).toFinset) with
    | false =>
      simp only [hn, ha, Bool.false_and, Bool.false_or, Bool.false_eq_true, if_false,
        decide_sdiff_card_lt]
    | true =>
      simp only [hn, ha, Bool.false_and, Bool.false_or, Bool.true_or, Bool.and_true,
        Bool.false_eq_true, if_false, if_true, decide_sdiff_card_lt, ha]
  | true =>
    cases ha : decide (∃ a ∈ (i.artists.map pyLower).toFinset,
        a ∈ (st.artists.flatMap
          (fun a => (pySplit multArtistPattern a).map (fun n => pyLower (ud n)))).toFinset) with
    | false =>
      simp only [hn, ha, Bool.true_and, Bool.and_false, Bool.true_or, Bool.false_or,
        Bool.false_eq_true, if_false, if_true, decide_sdiff_card_lt]
    | true =>
      simp [hn, ha]


/-- Counterexample for C5 as stated: the claim describes phase 2 as removing
every character that is neither alphanumeric nor whitespace, but the code's
`SPECIAL_CHAR_MATCH = [^\s\w]+` keeps underscores (`\w` includes them).
On the ASCII inputs name "a_b" with artists ["x"] against external name "ab"
by ["x"] (where the `unidecode` transliteration is the identity), the claimed
policy accepts — the underscore is removed and the relaxed names agree —
while the code rejects. -/
theorem c5_match_policy_counterexample :
    is_track_match (fun s => s) c5track c5result = false ∧
    claimed_track_match c5track c5result = true := by
  decide

end Muslytics


namespace Muslytics

section DictLemmas

variable {κ β : Type} [DecidableEq κ]

theorem dlookup_eq_some_of_mem {l : List (κ × β)} {k : κ} {v : β}
    (hn : (l.map Prod.fst).Nodup) (hm : (k, v) ∈ l) : dlookup k l = Option.some v := by
  induction l with
  | nil => cases hm
  | cons p rest ih =>
    rcases List.mem_cons.mp hm with h | h
    · subst h
      simp [dlookup]
    · have hne : p.1 ≠ k := by
        intro he
        have : k ∈ rest.map Prod.fst := List.mem_map.mpr ⟨(k, v), h, rfl⟩
        rw [List.map_cons, List.nodup_cons] at hn
        exact hn.1 (he ▸ this)
      rcases p with ⟨k', v'⟩
      simp only [dlookup, if_neg hne]
      exact ih (by rw [List.map_cons, List.nodup_cons] at hn; exact hn.2) h

theorem mem_of_dlookup_eq_some {l : List (κ × β)} {k : κ} {v : β}
    (h : dlookup k l = Option.some v) : (k, v) ∈ l := by
  induction l with
  | nil => cases h
  | cons p rest ih =>
    rcases p with ⟨k', v'⟩
    by_cases he : k' = k
    · subst he
      simp only [dlookup, if_pos rfl] at h
      cases h
      exact List.mem_cons_self _ _
    · simp only [dlookup, if_neg he] at h
      exact List.mem_cons_of_mem _ (ih h)

theorem dlookup_ddelete (l : List (κ × β)) (k k' : κ) :
    k ≠ k' → dlookup k (ddelete k' l) = dlookup k l := by
  intro hne
  induction l with
  | nil => rfl
  | cons p rest ih =>
    rcases p with ⟨k0, v0⟩
    by_cases h0 : k0 = k'
    · subst h0
      have hne2 : ¬ k0 = k := fun he => hne he.symm
      simp [ddelete, dlookup, hne2]
    · simp only [ddelete, if_neg h0, dlookup]
      by_cases h1 : k0 = k
      · simp [if_pos h1]
      · simp only [if_neg h1]
        exact ih

theorem dlookup_ddelete_self {l : List (κ × β)} {k : κ}
    (hn : (l.map Prod.fst).Nodup) : dlookup k (ddelete k l) = Option.none := by
  induction l with
  | nil => rfl
  | cons p rest ih =>
    rcases p with ⟨k0, v0⟩
    rw [List.map_cons, List.nodup_cons] at hn
    by_cases h0 : k0 = k
    · subst h0
      rcases hl : dlookup k0 rest with _ | w
      · simpa [ddelete] using hl
      · exact absurd (List.mem_map.mpr ⟨(k0, w), mem_of_dlookup_eq_some hl, rfl⟩) hn.1
    · simp only [ddelete, if_neg h0, dlookup, if_neg h0]
      exact ih hn.2

theorem keys_ddelete_sublist (l : List (κ × β)) (k : κ) :
    ((ddelete k l).map Prod.fst).Sublist (l.map Prod.fst) := by
  induction l with
  | nil => simp [ddelete]
  | cons p rest ih =>
    rcases p with ⟨k0, v0⟩
    by_cases h0 : k0 = k
    · simp only [ddelete, if_pos h0, List.map_cons]
      exact (List.sublist_cons_self _ _)
    · simp only [ddelete, if_neg h0, List.map_cons]
      exact ih.cons₂ _

theorem keys_dupdate (l : List (κ × β)) (k : κ) (v : β) :
    (dupdate k v l).map Prod.fst = l.map Prod.fst := by
  induction l with
  | nil => rfl
  | cons p rest ih =>
    rcases p with ⟨k0, v0⟩
    by_cases h0 : k0 = k
    · simp [dupdate, if_pos h0]
    · simp [dupdate, if_neg h0, ih]

theorem dlookup_dupdate (l : List (κ × β)) (k k' : κ) (v : β) :
    dlookup k (dupdate k' v l) =
      if k = k' then (dlookup k l).map (fun _ => v) else dlookup k l := by
  induction l with
  | nil => by_cases h : k = k' <;> simp [dupdate, dlookup, h]
  | cons p rest ih =>
    rcases p with ⟨k0, v0⟩
    by_cases h0 : k0 = k' <;> by_cases h1 : k0 = k
    · subst h0
      subst h1
      simp [dupdate, dlookup]
    · subst h0
      have h2 : ¬ k = k0 := fun he => h1 he.symm
      simp [dupdate, dlookup, h1, h2]
    · subst h1
      simp [dupdate, dlookup, h0]
    · have h2 : ¬ k0 = k := h1
      simp [dupdate, dlookup, h0, h2, ih]

end DictLemmas

section EraseFirstLemmas

variable {α : Type} [DecidableEq α]

theorem mem_of_mem_eraseFirst {l : List α} {x y : α} (h : x ∈ eraseFirst y l) : x ∈ l := by
  induction l with
  | nil => cases h
  | cons a rest ih =>
    by_cases ha : a = y
    · simp only [eraseFirst, if_pos ha] at h
      exact List.mem_cons_of_mem _ h
    · simp only [eraseFirst, if_neg ha] at h
      rcases List.mem_cons.mp h with h | h
      · exact h ▸ List.mem_cons_self _ _
      · exact List.mem_cons_of_mem _ (ih h)

theorem mem_eraseFirst_of_mem_ne {l : List α} {x y : α} (hm : x ∈ l) (hne : x ≠ y) :
    x ∈ eraseFirst y l := by
  induction l with
  | nil => cases hm
  | cons a rest ih =>
    by_cases ha : a = y
    · simp only [eraseFirst, if_pos ha]
      rcases List.mem_cons.mp hm with h | h
      · exact absurd (h.trans ha) hne
      · exact h
    · simp only [eraseFirst, if_neg ha]
      rcases List.mem_cons.mp hm with h | h
      · exact h ▸ List.mem_cons_self _ _
      · exact List.mem_cons_of_mem _ (ih h)

theorem not_mem_eraseFirst_self {l : List α} (hn : l.Nodup) (x : α) :
    x ∉ eraseFirst x l := by
  induction l with
  | nil => simp [eraseFirst]
  | cons a rest ih =>
    rw [List.nodup_cons] at hn
    by_cases ha : a = x
    · subst ha
      simp only [eraseFirst, if_pos rfl]
      exact hn.1
    · simp only [eraseFirst, if_neg ha]
      intro hm
      rcases List.mem_cons.mp hm with h | h
      · exact ha h.symm
      · exact ih hn.2 h

theorem eraseFirst_sublist (x : α) (l : List α) : (eraseFirst x l).Sublist l := by
  induction l with
  | nil => simp [eraseFirst]
  | cons a rest ih =>
    by_cases ha : a = x
    · simp only [eraseFirst, if_pos ha]
      exact List.sublist_cons_self _ _
    · simp only [eraseFirst, if_neg ha]
      exact ih.cons₂ _

end EraseFirstLemmas

end Muslytics

namespace Muslytics

section GroupLemmas

theorem dlookup_none_iff {κ β : Type} [DecidableEq κ] {l : List (κ × β)} {k : κ} :
    dlookup k l = Option.none ↔ k ∉ l.map Prod.fst := by
  induction l with
  | nil => simp [dlookup]
  | cons p rest ih =>
    rcases p with ⟨k0, v0⟩
    by_cases h0 : k0 = k
    · subst h0
      simp [dlookup]
    · have h1 : ¬ k = k0 := fun he => h0 he.symm
      simp [dlookup, h0, h1, ih]

theorem addToGroups_lookup_self (gs : List (Ident × List Nat)) (ident : Ident) (tid : Nat) :
    dlookup ident (addToGroups gs ident tid) =
      Option.some ((dlookup ident gs).getD [] ++ [tid]) := by
  induction gs with
  | nil => simp [addToGroups, dlookup]
  | cons p rest ih =>
    rcases p with ⟨k0, l0⟩
    by_cases h0 : k0 = ident
    · subst h0
      simp [addToGroups, dlookup]
    · simp [addToGroups, h0, dlookup, ih]

theorem addToGroups_lookup_ne (gs : List (Ident × List Nat)) (ident ident' : Ident)
    (tid : Nat) (hne : ident' ≠ ident) :
    dlookup ident' (addToGroups gs ident tid) = dlookup ident' gs := by
  have hne2 : ¬ ident = ident' := fun he => hne he.symm
  induction gs with
  | nil => simp [addToGroups, dlookup, hne2]
  | cons p rest ih =>
    rcases p with ⟨k0, l0⟩
    by_cases h0 : k0 = ident
    · subst h0
      simp [addToGroups, dlookup, hne2]
    · by_cases h1 : k0 = ident'
      · subst h1
        simp [addToGroups, h0, dlookup]
      · simp [addToGroups, h0, h1, dlookup, ih]

theorem keys_addToGroups (gs : List (Ident × List Nat)) (ident : Ident) (tid : Nat) :
    (addToGroups gs ident tid).map Prod.fst =
      if (dlookup ident gs).isSome then gs.map Prod.fst else gs.map Prod.fst ++ [ident] := by
  induction gs with
  | nil => simp [addToGroups, dlookup]
  | cons p rest ih =>
    rcases p with ⟨k0, l0⟩
    by_cases h0 : k0 = ident
    · subst h0
      simp [addToGroups, dlookup]
    · simp only [addToGroups, if_neg h0, List.map_cons, dlookup, ih]
      by_cases h1 : (dlookup ident rest).isSome
      · simp [h0, h1]
      · simp [h0, h1]

theorem buildGroups_keys_nodup (ts : List (Nat × ITunesTrack)) :
    ((buildGroups ts).map Prod.fst).Nodup := by
  suffices h : ∀ gs : List (Ident × List Nat), (gs.map Prod.fst).Nodup →
      ((ts.foldl (fun gs p => addToGroups gs (get_track_identifier p.2) p.1) gs).map
        Prod.fst).Nodup from h [] (by simp)
  induction ts with
  | nil => intro gs hgs; simpa using hgs
  | cons p rest ih =>
    intro gs hgs
    simp only [List.foldl_cons]
    apply ih
    rw [keys_addToGroups]
    by_cases h1 : (dlookup (get_track_identifier p.2) gs).isSome
    · simpa [h1] using hgs
    · rw [if_neg h1]
      rw [List.nodup_append]
      refine ⟨hgs, List.nodup_singleton _, ?_⟩
      intro x hx hx2
      rw [List.mem_singleton] at hx2
      rcases hl : dlookup (get_track_identifier p.2) gs with _ | w
      · exact (dlookup_none_iff.mp hl) (hx2 ▸ hx)
      · exact h1 (by simp [hl])

theorem foldGroups_lookup_some (ts : List (Nat × ITunesTrack)) :
    ∀ (gs : List (Ident × List Nat)) (ident : Ident) (l : List Nat),
      dlookup ident gs = Option.some l →
      dlookup ident (ts.foldl (fun gs p => addToGroups gs (get_track_identifier p.2) p.1) gs) =
        Option.some (l ++
          (ts.filter (fun p => decide (get_track_identifier p.2 = ident))).map Prod.fst) := by
  induction ts with
  | nil => intro gs ident l hl; simpa using hl
  | cons p rest ih =>
    intro gs ident l hl
    simp only [List.foldl_cons]
    by_cases hident : get_track_identifier p.2 = ident
    · have step : dlookup ident (addToGroups gs (get_track_identifier p.2) p.1) =
          Option.some (l ++ [p.1]) := by
        rw [hident, addToGroups_lookup_self, hl]
        rfl
      rw [ih _ _ _ step]
      simp [hident, List.filter_cons]
    · have step : dlookup ident (addToGroups gs (get_track_identifier p.2) p.1) =
          Option.some l := by
        rw [addToGroups_lookup_ne _ _ _ _ (fun he => hident he.symm), hl]
      rw [ih _ _ _ step]
      simp [List.filter_cons, hident]

theorem foldGroups_lookup_none (ts : List (Nat × ITunesTrack)) :
    ∀ (gs : List (Ident × List Nat)) (ident : Ident),
      dlookup ident gs = Option.none →
      dlookup ident (ts.foldl (fun gs p => addToGroups gs (get_track_identifier p.2) p.1) gs) =
        (if ((ts.filter (fun p => decide (get_track_identifier p.2 = ident))).map Prod.fst) = []
         then Option.none
         else Option.some
           ((ts.filter (fun p => decide (get_track_identifier p.2 = ident))).map Prod.fst)) := by
  induction ts with
  | nil => intro gs ident hl; simpa using hl
  | cons p rest ih =>
    intro gs ident hl
    simp only [List.foldl_cons]
    by_cases hident : get_track_identifier p.2 = ident
    · have step : dlookup ident (addToGroups gs (get_track_identifier p.2) p.1) =
          Option.some [p.1] := by
        rw [hident, addToGroups_lookup_self, hl]
        rfl
      rw [foldGroups_lookup_some _ _ _ _ step]
      simp [List.filter_cons, hident]
    · have step : dlookup ident (addToGroups gs (get_track_identifier p.2) p.1) =
          Option.none := by
        rw [addToGroups_lookup_ne _ _ _ _ (fun he => hident he.symm), hl]
      rw [ih _ _ step]
      have hb : (decide (get_track_identifier p.2 = ident)) = false := decide_eq_false hident
      have hfil : List.filter (fun q => decide (get_track_identifier q.2 = ident)) (p :: rest) =
          List.filter (fun q => decide (get_track_identifier q.2 = ident)) rest := by
        simp [List.filter_cons, hb]
      rw [hfil]

theorem buildGroups_lookup (ts : List (Nat × ITunesTrack)) (ident : Ident) :
    dlookup ident (buildGroups ts) =
      (if ((ts.filter (fun p => decide (get_track_identifier p.2 = ident))).map Prod.fst) = []
       then Option.none
       else Option.some
         ((ts.filter (fun p => decide (get_track_identifier p.2 = ident))).map Prod.fst)) :=
  foldGroups_lookup_none ts [] ident rfl

end GroupLemmas

end Muslytics

namespace Muslytics

theorem mem_groupIds {lib : ITunesLibrary} {ident : Ident} {x : Nat} :
    x ∈ groupIds lib ident ↔
      ∃ t, (x, t) ∈ lib.tracks ∧ get_track_identifier t = ident := by
  unfold groupIds
  constructor
  · intro hx
    rcases List.mem_map.mp hx with ⟨p, hp, hfst⟩
    rcases List.mem_filter.mp hp with ⟨hmem, hdec⟩
    refine ⟨p.2, ?_, of_decide_eq_true hdec⟩
    have hp2 : (p.1, p.2) ∈ lib.tracks := by simpa using hmem
    rwa [hfst] at hp2
  · rintro ⟨t, hmem, hident⟩
    exact List.mem_map.mpr ⟨(x, t), List.mem_filter.mpr ⟨hmem, decide_eq_true hident⟩, rfl⟩

theorem dict_value_unique {κ β : Type} [DecidableEq κ] {l : List (κ × β)} {k : κ} {v w : β}
    (hn : (l.map Prod.fst).Nodup) (h1 : (k, v) ∈ l) (h2 : (k, w) ∈ l) : v = w := by
  have e1 := dlookup_eq_some_of_mem hn h1
  have e2 := dlookup_eq_some_of_mem hn h2
  rw [e1] at e2
  cases e2
  rfl

theorem groupIds_sub_keys (lib : ITunesLibrary) (ident : Ident) :
    (groupIds lib ident).Sublist (lib.tracks.map Prod.fst) :=
  List.Sublist.map Prod.fst (List.filter_sublist _)

theorem groupIds_nodup {lib : ITunesLibrary} (hn : (lib.tracks.map Prod.fst).Nodup)
    (ident : Ident) : (groupIds lib ident).Nodup :=
  hn.sublist (groupIds_sub_keys lib ident)

theorem groupIds_disjoint {lib : ITunesLibrary} (hn : (lib.tracks.map Prod.fst).Nodup)
    {ident ident' : Ident} (hne : ident ≠ ident') {x : Nat}
    (h1 : x ∈ groupIds lib ident) (h2 : x ∈ groupIds lib ident') : False := by
  rcases mem_groupIds.mp h1 with ⟨t, hm1, hi1⟩
  rcases mem_groupIds.mp h2 with ⟨t', hm2, hi2⟩
  have : t = t' := dict_value_unique hn hm1 hm2
  subst this
  exact hne (hi1 ▸ hi2 ▸ rfl)

theorem buildGroups_lookup_lib (lib : ITunesLibrary) (ident : Ident) :
    dlookup ident (buildGroups lib.tracks) =
      (if groupIds lib ident = [] then Option.none else Option.some (groupIds lib ident)) :=
  buildGroups_lookup lib.tracks ident

theorem mem_duplicateIdents {lib : ITunesLibrary} {ident : Ident} :
    ident ∈ duplicateIdents lib.tracks ↔ 2 ≤ (groupIds lib ident).length := by
  unfold duplicateIdents
  constructor
  · intro hx
    rcases List.mem_map.mp hx with ⟨p, hp, hfst⟩
    rcases List.mem_filter.mp hp with ⟨hmem, hdec⟩
    have hlen : 2 ≤ p.2.length := of_decide_eq_true hdec
    have hl : dlookup p.1 (buildGroups lib.tracks) = Option.some p.2 :=
      dlookup_eq_some_of_mem (buildGroups_keys_nodup lib.tracks) (by rcases p with ⟨a, b⟩; exact hmem)
    rw [hfst] at hl
    rw [buildGroups_lookup_lib] at hl
    by_cases hnil : groupIds lib ident = []
    · rw [if_pos hnil] at hl
      cases hl
    · rw [if_neg hnil] at hl
      injection hl with hh
      rw [hh]
      exact hlen
  · intro hlen
    have hnil : groupIds lib ident ≠ [] := by
      intro h
      rw [h] at hlen
      simp at hlen
    have hl : dlookup ident (buildGroups lib.tracks) = Option.some (groupIds lib ident) := by
      rw [buildGroups_lookup_lib, if_neg hnil]
    exact List.mem_map.mpr ⟨(ident, groupIds lib ident),
      List.mem_filter.mpr ⟨mem_of_dlookup_eq_some hl, decide_eq_true hlen⟩, rfl⟩

theorem duplicateIdents_nodup (ts : List (Nat × ITunesTrack)) :
    (duplicateIdents ts).Nodup := by
  unfold duplicateIdents
  have h1 : ((buildGroups ts).filter (fun p => 2 ≤ p.2.length)).Sublist (buildGroups ts) :=
    List.filter_sublist _
  exact (buildGroups_keys_nodup ts).sublist (h1.map Prod.fst)

theorem computeMerged_spec (lib : ITunesLibrary) (groups : List (Ident × List Nat)) :
    ∀ (l : List Ident) (ms : List (Ident × MergedInfo)),
      computeMerged lib groups l = Except.ok ms →
      ms.map Prod.fst = l ∧
      ∀ ident m, (ident, m) ∈ ms →
        ∃ ids, dlookup ident groups = Option.some ids ∧ mergeGroup lib ids = Except.ok m := by
  intro l
  induction l with
  | nil =>
    intro ms h
    cases h
    exact ⟨rfl, by intro ident m h; cases h⟩
  | cons ident rest ih =>
    intro ms h
    unfold computeMerged at h
    rcases hl : dlookup ident groups with _ | ids
    · simp only [hl] at h
      cases h
    · simp only [hl] at h
      rcases hm : mergeGroup lib ids with e | m
      · simp only [hm] at h
        cases h
      · simp only [hm] at h
        rcases hr : computeMerged lib groups rest with e | ms'
        · simp only [hr] at h
          cases h
        · simp only [hr] at h
          cases h
          rcases ih ms' hr with ⟨hmap, hmem⟩
          constructor
          · simp [hmap]
          · intro ident' m' hmem'
            rcases List.mem_cons.mp hmem' with h | h
            · cases h
              exact ⟨ids, hl, hm⟩
            · exact hmem ident' m' h

end Muslytics

namespace Muslytics

theorem mergeLoop_stats (albums : List (AlbumId × ITunesAlbum)) :
    ∀ (ts : List ITunesTrack) (st st' : MergeState),
      mergeLoop albums ts st = Except.ok st' →
      st'.plays = st.plays + (ts.map (fun t => t.plays)).sum ∧
      st'.sumRating = st.sumRating + (ts.filterMap (fun t => t.rating)).sum ∧
      st'.dupCount = st.dupCount + (ts.filterMap (fun t => t.rating)).length ∧
      st'.loved = (st.loved || ts.any (fun t => t.loved)) := by
  intro ts
  induction ts with
  | nil =>
    intro st st' h
    cases h
    simp
  | cons t rest ih =>
    intro st st' h
    unfold mergeLoop at h
    rcases hp : prefStep albums t st.pref with e | pref2
    · rw [hp] at h
      cases h
    · rw [hp] at h
      rcases ih _ _ h with ⟨h1, h2, h3, h4⟩
      refine ⟨?_, ?_, ?_, ?_⟩
      · rw [h1]
        simp only [List.map_cons, List.sum_cons]
        ring
      · rw [h2]
        rcases hr : t.rating with _ | r
        · simp [List.filterMap_cons, hr]
        · simp only [List.filterMap_cons, hr, List.sum_cons]
          ring
      · rw [h3]
        rcases hr : t.rating with _ | r
        · simp [List.filterMap_cons, hr]
        · simp only [List.filterMap_cons, hr, List.length_cons]
          omega
      · rw [h4]
        simp [Bool.or_assoc]

theorem prefStep_mem (albums : List (AlbumId × ITunesAlbum)) (t : ITunesTrack)
    (po : Option (Nat × AlbumId × Nat)) (po2 : Option (Nat × AlbumId × Nat))
    (h : prefStep albums t po = Except.ok po2) :
    ∀ p, po2 = Option.some p →
      p.1 = t.id ∨ (∃ q, po = Option.some q ∧ p.1 = q.1) := by
  intro p hp
  rcases po with _ | ⟨pid, paid, pcount⟩
  · simp only [prefStep] at h
    rcases hl : dlookup t.album_id albums with _ | alb
    · simp only [hl] at h
      cases h
    · simp only [hl] at h
      cases h
      cases hp
      exact Or.inl rfl
  · simp only [prefStep] at h
    by_cases he : t.album_id = paid
    · rw [if_pos he] at h
      cases h
      cases hp
      exact Or.inr ⟨(pid, paid, pcount), rfl, rfl⟩
    · rw [if_neg he] at h
      rcases hl : dlookup t.album_id albums with _ | alb
      · simp only [hl] at h
        cases h
      · simp only [hl] at h
        by_cases h0 : t.album_id.2 - paid.2 = 0
        · rw [if_pos h0] at h
          by_cases h1 : pcount < alb.tracks.length
          · rw [if_pos h1] at h
            cases h
            cases hp
            exact Or.inl rfl
          · rw [if_neg h1] at h
            cases h
            cases hp
            exact Or.inr ⟨(pid, paid, pcount), rfl, rfl⟩
        · rw [if_neg h0] at h
          by_cases h1 : 0 < t.album_id.2 - paid.2
          · rw [if_pos h1] at h
            cases h
            cases hp
            exact Or.inl rfl
          · rw [if_neg h1] at h
            cases h
            cases hp
            exact Or.inr ⟨(pid, paid, pcount), rfl, rfl⟩

theorem mergeLoop_pref_mem (albums : List (AlbumId × ITunesAlbum)) :
    ∀ (ts : List ITunesTrack) (st st' : MergeState),
      mergeLoop albums ts st = Except.ok st' →
      ∀ p, st'.pref = Option.some p →
        p.1 ∈ ts.map (fun t => t.id) ∨ (∃ q, st.pref = Option.some q ∧ p.1 = q.1) := by
  intro ts
  induction ts with
  | nil =>
    intro st st' h p hp
    cases h
    exact Or.inr (by exact ⟨p, hp, rfl⟩)
  | cons t rest ih =>
    intro st st' h p hp
    unfold mergeLoop at h
    rcases hpstep : prefStep albums t st.pref with e | pref2
    · rw [hpstep] at h
      cases h
    · rw [hpstep] at h
      rcases ih _ _ h p hp with hmem | ⟨q, hq, hpq⟩
      · exact Or.inl (List.mem_cons_of_mem _ hmem)
      · simp only at hq
        rcases prefStep_mem albums t st.pref pref2 hpstep q hq with h1 | ⟨r, hr, hqr⟩
        · exact Or.inl (by rw [List.map_cons, List.mem_cons]; exact Or.inl (hpq.trans h1))
        · exact Or.inr ⟨r, hr, hpq.trans hqr⟩

end Muslytics

namespace Muslytics

theorem mergeLoop_claimed (albums : List (AlbumId × ITunesAlbum)) :
    ∀ (ts : List ITunesTrack) (st : MergeState) (st' : MergeState)
      (sp : Option (Nat × AlbumId)),
      mergeLoop albums ts st = Except.ok st' →
      PrefRel albums st.pref sp →
      PrefRel albums st'.pref (claimedSurvivorLoop albums ts sp) := by
  intro ts
  induction ts with
  | nil =>
    intro st st' sp h hrel
    cases h
    exact hrel
  | cons t rest ih =>
    intro st st' sp h hrel
    unfold mergeLoop at h
    rcases hpstep : prefStep albums t st.pref with e | pref2
    · rw [hpstep] at h
      cases h
    · rw [hpstep] at h
      rcases hpo : st.pref with _ | ⟨pid, paid, pcount⟩ <;> rcases hsp : sp with _ | ⟨pid', paid'⟩ <;>
          rw [hpo, hsp] at hrel
      · -- both none: seed
        rw [hpo] at hpstep
        simp only [prefStep] at hpstep
        rcases hl : dlookup t.album_id albums with _ | alb
        · simp only [hl] at hpstep
          cases hpstep
        · simp only [hl] at hpstep
          cases hpstep
          have step : claimedSurvivorLoop albums (t :: rest) Option.none =
              claimedSurvivorLoop albums rest (Option.some (t.id, t.album_id)) := rfl
          rw [step]
          apply ih _ _ _ h
          simp [PrefRel, hl]
      · exact absurd hrel (by simp [PrefRel])
      · exact absurd hrel (by simp [PrefRel])
      · -- both some
        rcases hrel with ⟨hpid, hpaid, hcount⟩
        subst hpid
        subst hpaid
        rw [hpo] at hpstep
        simp only [prefStep] at hpstep
        by_cases he : t.album_id = paid
        · rw [if_pos he] at hpstep
          cases hpstep
          have step : claimedSurvivorLoop albums (t :: rest) (Option.some (pid, paid)) =
              claimedSurvivorLoop albums rest (Option.some (pid, paid)) := by
            conv_lhs => unfold claimedSurvivorLoop
            rw [if_pos he]
          rw [step]
          apply ih _ _ _ h
          simp [PrefRel, hcount]
        · rw [if_neg he] at hpstep
          rcases hl : dlookup t.album_id albums with _ | alb
          · simp only [hl] at hpstep
            cases hpstep
          · simp only [hl] at hpstep
            rcases lt_trichotomy paid.2 t.album_id.2 with hyr | hyr | hyr
            · -- candidate strictly more recent: switch
              have h0 : ¬ t.album_id.2 - paid.2 = 0 := by omega
              have h1 : 0 < t.album_id.2 - paid.2 := by omega
              rw [if_neg h0, if_pos h1] at hpstep
              cases hpstep
              have step : claimedSurvivorLoop albums (t :: rest) (Option.some (pid, paid)) =
                  claimedSurvivorLoop albums rest (Option.some (t.id, t.album_id)) := by
                conv_lhs => unfold claimedSurvivorLoop
                rw [if_neg he]
                simp only []
                rw [if_pos hyr]
              rw [step]
              apply ih _ _ _ h
              simp [PrefRel, hl]
            · -- equal years: tie-break on track count
              have h0 : t.album_id.2 - paid.2 = 0 := by omega
              rw [if_pos h0] at hpstep
              have hcand : ((dlookup t.album_id albums).map (fun a => a.tracks.length)).getD 0 =
                  alb.tracks.length := by rw [hl]; rfl
              by_cases h1 : pcount < alb.tracks.length
              · rw [if_pos h1] at hpstep
                cases hpstep
                have step : claimedSurvivorLoop albums (t :: rest) (Option.some (pid, paid)) =
                    claimedSurvivorLoop albums rest (Option.some (t.id, t.album_id)) := by
                  conv_lhs => unfold claimedSurvivorLoop
                  rw [if_neg he]
                  simp only []
                  rw [if_neg (by omega : ¬ paid.2 < t.album_id.2), if_pos]
                  exact ⟨by omega, by rw [hcand, ← hcount]; exact h1⟩
                rw [step]
                apply ih _ _ _ h
                simp [PrefRel, hl]
              · rw [if_neg h1] at hpstep
                cases hpstep
                have step : claimedSurvivorLoop albums (t :: rest) (Option.some (pid, paid)) =
                    claimedSurvivorLoop albums rest (Option.some (pid, paid)) := by
                  conv_lhs => unfold claimedSurvivorLoop
                  rw [if_neg he]
                  simp only []
                  rw [if_neg (by omega : ¬ paid.2 < t.album_id.2), if_neg]
                  intro hand
                  rw [hcand, ← hcount] at hand
                  exact h1 hand.2
                rw [step]
                apply ih _ _ _ h
                simp [PrefRel, hcount]
            · -- candidate older: keep
              have h0 : ¬ t.album_id.2 - paid.2 = 0 := by omega
              have h1 : ¬ 0 < t.album_id.2 - paid.2 := by omega
              rw [if_neg h0, if_neg h1] at hpstep
              cases hpstep
              have step : claimedSurvivorLoop albums (t :: rest) (Option.some (pid, paid)) =
                  claimedSurvivorLoop albums rest (Option.some (pid, paid)) := by
                conv_lhs => unfold claimedSurvivorLoop
                rw [if_neg he]
                simp only []
                rw [if_neg (by omega : ¬ paid.2 < t.album_id.2), if_neg]
                intro hand
                omega
              rw [step]
              apply ih _ _ _ h
              simp [PrefRel, hcount]

end Muslytics

namespace Muslytics

theorem getTracks_forall2 (tracks : List (Nat × ITunesTrack)) :
    ∀ (ids : List Nat) (ts : List ITunesTrack),
      getTracks tracks ids = Except.ok ts →
      List.Forall₂ (fun i t => dlookup i tracks = Option.some t) ids ts := by
  intro ids
  induction ids with
  | nil =>
    intro ts h
    cases h
    exact List.Forall₂.nil
  | cons i rest ih =>
    intro ts h
    unfold getTracks at h
    rcases hl : dlookup i tracks with _ | t
    · rw [hl] at h
      cases h
    · rw [hl] at h
      rcases hr : getTracks tracks rest with e | ts'
      · rw [hr] at h
        cases h
      · rw [hr] at h
        cases h
        exact List.Forall₂.cons hl (ih ts' hr)

theorem getTracks_map_id {lib : ITunesLibrary}
    (hid : ∀ p ∈ lib.tracks, (p.2 : ITunesTrack).id = p.1)
    {ids : List Nat} {ts : List ITunesTrack}
    (h : getTracks lib.tracks ids = Except.ok ts) :
    ts.map (fun t => t.id) = ids := by
  have hf := getTracks_forall2 lib.tracks ids ts h
  clear h
  induction hf with
  | nil => rfl
  | cons hit htail ih =>
    rename_i i t rest ts'
    have hti : t.id = i := hid (i, t) (mem_of_dlookup_eq_some hit)
    simp only [List.map_cons, ih, hti]

theorem getTracks_of_pairs (lib : ITunesLibrary)
    (hn : (lib.tracks.map Prod.fst).Nodup) :
    ∀ (l : List (Nat × ITunesTrack)), (∀ p ∈ l, p ∈ lib.tracks) →
      getTracks lib.tracks (l.map Prod.fst) = Except.ok (l.map Prod.snd) := by
  intro l
  induction l with
  | nil => intro _; rfl
  | cons p rest ih =>
    intro hmem
    rcases p with ⟨i, t⟩
    have h1 : dlookup i lib.tracks = Option.some t :=
      dlookup_eq_some_of_mem hn (hmem (i, t) (List.mem_cons_self _ _))
    simp only [List.map_cons]
    unfold getTracks
    rw [h1, ih (fun q hq => hmem q (List.mem_cons_of_mem _ hq))]

theorem getTracks_group (lib : ITunesLibrary)
    (hn : (lib.tracks.map Prod.fst).Nodup) (ident : Ident) :
    getTracks lib.tracks (groupIds lib ident) = Except.ok (groupTracks lib ident) :=
  getTracks_of_pairs lib hn _ (fun _ hp => (List.mem_filter.mp hp).1)

theorem mergeGroup_spec (lib : ITunesLibrary) (ids : List Nat) (ts : List ITunesTrack)
    (m : MergedInfo) (hm : mergeGroup lib ids = Except.ok m)
    (hts : getTracks lib.tracks ids = Except.ok ts) :
    m.plays = (ts.map (fun t => t.plays)).sum ∧
    m.rating = (if ts.filterMap (fun t => t.rating) = [] then Option.none
                else Option.some ((ts.filterMap (fun t => t.rating)).sum /
                  ((ts.filterMap (fun t => t.rating)).length : ℚ))) ∧
    m.loved = ts.any (fun t => t.loved) ∧
    claimedSurvivor lib.albums ts = Option.some m.survivor ∧
    m.survivor ∈ ts.map (fun t => t.id) := by
  unfold mergeGroup at hm
  simp only [hts] at hm
  rcases hloop : mergeLoop lib.albums ts ⟨0, 0, 0, false, Option.none⟩ with e | st
  · simp only [hloop] at hm
    cases hm
  · simp only [hloop] at hm
    rcases hpref : st.pref with _ | ⟨sid, said, scount⟩
    · simp only [hpref] at hm
      cases hm
    · simp only [hpref] at hm
      cases hm
      rcases mergeLoop_stats lib.albums ts _ _ hloop with ⟨h1, h2, h3, h4⟩
      simp only at h1 h2 h3 h4
      have hrel := mergeLoop_claimed lib.albums ts _ _ Option.none hloop
        (by simp [PrefRel])
      rw [hpref] at hrel
      refine ⟨by simpa using h1, ?_, by simpa using h4, ?_, ?_⟩
      · rcases hfm : ts.filterMap (fun t => t.rating) with _ | ⟨r, rs⟩
        · have : st.dupCount = 0 := by rw [h3, hfm]; rfl
          simp [this, hfm]
        · have hne : st.dupCount ≠ 0 := by rw [h3, hfm]; simp
          simp only [if_neg (by simp [hfm] : ¬ ts.filterMap (fun t => t.rating) = [])]
          simp only [if_pos hne]
          rw [h2, h3, hfm]
          simp
      · unfold claimedSurvivor
        rcases hcl : claimedSurvivorLoop lib.albums ts Option.none with _ | ⟨pid', paid'⟩
        · rw [hcl] at hrel
          exact absurd hrel (by simp [PrefRel])
        · rw [hcl] at hrel
          rcases hrel with ⟨hpid, _, _⟩
          simp [hpid]
      · have := mergeLoop_pref_mem lib.albums ts _ _ hloop (sid, said, scount) hpref
        rcases this with hmem | ⟨q, hq, _⟩
        · exact hmem
        · cases hq

end Muslytics

namespace Muslytics

theorem cascadeTrack_tracks (lib : ITunesLibrary) (did : Nat) (lib2 : ITunesLibrary)
    (e : CascadeEntry) (h : cascadeTrack lib did = Except.ok (lib2, e)) :
    lib2.tracks = ddelete did lib.tracks ∧ (∃ t, dlookup did lib.tracks = Option.some t) := by
  unfold cascadeTrack at h
  rcases hl : dlookup did lib.tracks with _ | t
  · simp only [hl] at h
    cases h
  · simp only [hl] at h
    unfold cascadeTrackAlbum at h
    rcases ha : dlookup t.album_id lib.albums with _ | alb
    · simp only [ha] at h
      cases h
    · simp only [ha] at h
      by_cases hmem : did ∈ alb.tracks
      · rw [if_pos hmem] at h
        by_cases hemp : eraseFirst did alb.tracks = []
        · rw [if_pos hemp] at h
          cases h
          exact ⟨rfl, t, rfl⟩
        · rw [if_neg hemp] at h
          cases h
          exact ⟨rfl, t, rfl⟩
      · rw [if_neg hmem] at h
        cases h

theorem cascadeList_spec :
    ∀ (ds : List Nat) (lib : ITunesLibrary) (lib2 : ITunesLibrary) (es : List CascadeEntry),
      cascadeList lib ds = Except.ok (lib2, es) →
      (lib.tracks.map Prod.fst).Nodup →
      ((lib2.tracks.map Prod.fst).Nodup ∧
       (∀ x, x ∉ ds → dlookup x lib2.tracks = dlookup x lib.tracks) ∧
       (∀ d ∈ ds, dlookup d lib2.tracks = Option.none)) := by
  intro ds
  induction ds with
  | nil =>
    intro lib lib2 es h hn
    cases h
    exact ⟨hn, fun x _ => rfl, fun d hd => absurd hd (List.not_mem_nil d)⟩
  | cons d0 rest ih =>
    intro lib lib2 es h hn
    unfold cascadeList at h
    rcases hc : cascadeTrack lib d0 with e0 | ⟨lib1, e1⟩
    · simp only [hc] at h
      cases h
    · simp only [hc] at h
      rcases hr : cascadeList lib1 rest with e0 | ⟨lib3, es3⟩
      · simp only [hr] at h
        cases h
      · simp only [hr] at h
        cases h
        rcases cascadeTrack_tracks lib d0 lib1 e1 hc with ⟨htr, t0, ht0⟩
        have hn1 : (lib1.tracks.map Prod.fst).Nodup := by
          rw [htr]
          exact hn.sublist (keys_ddelete_sublist _ _)
        rcases ih lib1 _ _ hr hn1 with ⟨hn3, hframe, hnone⟩
        refine ⟨hn3, ?_, ?_⟩
        · intro x hx
          have hx0 : x ≠ d0 := fun he => hx (he ▸ List.mem_cons_self _ _)
          have hxr : x ∉ rest := fun he => hx (List.mem_cons_of_mem _ he)
          rw [hframe x hxr, htr, dlookup_ddelete _ _ _ hx0]
        · intro d hd
          rcases List.mem_cons.mp hd with hd | hd
          · subst hd
            by_cases hdr : d ∈ rest
            · exact hnone d hdr
            · rw [hframe d hdr, htr]
              exact dlookup_ddelete_self hn
          · exact hnone d hd

theorem cascadeList_none_persist :
    ∀ (ds : List Nat) (lib : ITunesLibrary) (lib2 : ITunesLibrary) (es : List CascadeEntry),
      cascadeList lib ds = Except.ok (lib2, es) →
      ∀ x, dlookup x lib.tracks = Option.none → dlookup x lib2.tracks = Option.none := by
  intro ds
  induction ds with
  | nil =>
    intro lib lib2 es h x hx
    cases h
    exact hx
  | cons d0 rest ih =>
    intro lib lib2 es h x hx
    unfold cascadeList at h
    rcases hc : cascadeTrack lib d0 with e0 | ⟨lib1, e1⟩
    · simp only [hc] at h
      cases h
    · simp only [hc] at h
      rcases hr : cascadeList lib1 rest with e0 | ⟨lib3, es3⟩
      · simp only [hr] at h
        cases h
      · simp only [hr] at h
        cases h
        rcases cascadeTrack_tracks lib d0 lib1 e1 hc with ⟨htr, t0, ht0⟩
        apply ih lib1 _ _ hr
        have hx0 : x ≠ d0 := by
          intro he
          rw [he, ht0] at hx
          cases hx
        rw [htr, dlookup_ddelete _ _ _ hx0]
        exact hx

end Muslytics

namespace Muslytics

theorem processGroup_spec (lib : ITunesLibrary) (groups : List (Ident × List Nat))
    (ident : Ident) (m : MergedInfo) (lib2 : ITunesLibrary) (es : List CascadeEntry)
    (h : processGroup lib groups ident m = Except.ok (lib2, es))
    (hn : (lib.tracks.map Prod.fst).Nodup) :
    ∃ ids t, dlookup ident groups = Option.some ids ∧ m.survivor ∈ ids ∧
      dlookup m.survivor lib.tracks = Option.some t ∧
      (lib2.tracks.map Prod.fst).Nodup ∧
      (∀ x, x ∉ ids → dlookup x lib2.tracks = dlookup x lib.tracks) ∧
      (ids.Nodup → dlookup m.survivor lib2.tracks = Option.some (mergeInto t m)) ∧
      (∀ d ∈ ids, d ≠ m.survivor → dlookup d lib2.tracks = Option.none) ∧
      (∀ x, dlookup x lib.tracks = Option.none → dlookup x lib2.tracks = Option.none) := by
  unfold processGroup at h
  rcases hg : dlookup ident groups with _ | ids
  · simp only [hg] at h
    cases h
  · simp only [hg] at h
    by_cases hsm : m.survivor ∈ ids
    · rw [if_pos hsm] at h
      rcases hl : dlookup m.survivor lib.tracks with _ | t
      · simp only [hl] at h
        cases h
      · simp only [hl] at h
        set lib1 : ITunesLibrary :=
          { lib with tracks := dupdate m.survivor (mergeInto t m) lib.tracks } with hlib1
        have hn1 : (lib1.tracks.map Prod.fst).Nodup := by
          rw [hlib1]
          simpa [keys_dupdate] using hn
        rcases cascadeList_spec _ lib1 lib2 es h hn1 with ⟨hn2, hframe, hnone⟩
        refine ⟨ids, t, rfl, hsm, rfl, hn2, ?_, ?_, ?_, ?_⟩
        · intro x hx
          have hxd : x ∉ eraseFirst m.survivor ids := fun hc => hx (mem_of_mem_eraseFirst hc)
          have hxs : x ≠ m.survivor := fun he => hx (he ▸ hsm)
          rw [hframe x hxd, hlib1]
          simp only [dlookup_dupdate, if_neg hxs]
        · intro hids
          have hsd : m.survivor ∉ eraseFirst m.survivor ids := not_mem_eraseFirst_self hids _
          rw [hframe _ hsd, hlib1]
          simp only [dlookup_dupdate, if_pos rfl, hl]
          rfl
        · intro d hd hdne
          exact hnone d (mem_eraseFirst_of_mem_ne hd hdne)
        · intro x hx
          apply cascadeList_none_persist _ lib1 lib2 es h
          have hxs : x ≠ m.survivor := by
            intro he
            rw [he, hl] at hx
            cases hx
          rw [hlib1]
          simp only [dlookup_dupdate, if_neg hxs]
          exact hx
    · rw [if_neg hsm] at h
      cases h

theorem applyMerged_none_persist (groups : List (Ident × List Nat)) :
    ∀ (merged : List (Ident × MergedInfo)) (lib fin : ITunesLibrary) (log : List CascadeEntry),
      applyMerged lib groups merged = Except.ok (fin, log) →
      ∀ x, dlookup x lib.tracks = Option.none → dlookup x fin.tracks = Option.none := by
  intro merged
  induction merged with
  | nil =>
    intro lib fin log h x hx
    cases h
    exact hx
  | cons p rest ih =>
    intro lib fin log h x hx
    rcases p with ⟨ident, m⟩
    unfold applyMerged at h
    rcases hp : processGroup lib groups ident m with e | ⟨lib1, es1⟩
    · simp only [hp] at h
      cases h
    · simp only [hp] at h
      rcases hr : applyMerged lib1 groups rest with e | ⟨lib3, es3⟩
      · simp only [hr] at h
        cases h
      · simp only [hr] at h
        cases h
        apply ih lib1 _ _ hr
        rcases hg : dlookup ident groups with _ | ids
        · unfold processGroup at hp
          simp only [hg] at hp
          cases hp
        · unfold processGroup at hp
          simp only [hg] at hp
          by_cases hsm : m.survivor ∈ ids
          · rw [if_pos hsm] at hp
            rcases hl : dlookup m.survivor lib.tracks with _ | t
            · simp only [hl] at hp
              cases hp
            · simp only [hl] at hp
              apply cascadeList_none_persist _ _ _ _ hp
              have hxs : x ≠ m.survivor := by
                intro he
                rw [he, hl] at hx
                cases hx
              simp only [dlookup_dupdate, if_neg hxs]
              exact hx
          · rw [if_neg hsm] at hp
            cases hp

end Muslytics

namespace Muslytics

theorem applyMerged_frame (groups : List (Ident × List Nat)) :
    ∀ (merged : List (Ident × MergedInfo)) (lib fin : ITunesLibrary) (log : List CascadeEntry),
      applyMerged lib groups merged = Except.ok (fin, log) →
      (lib.tracks.map Prod.fst).Nodup →
      ∀ x, (∀ ident' m', (ident', m') ∈ merged →
              ∀ ids', dlookup ident' groups = Option.some ids' → x ∉ ids') →
        dlookup x fin.tracks = dlookup x lib.tracks := by
  intro merged
  induction merged with
  | nil =>
    intro lib fin log h hn x hx
    cases h
    rfl
  | cons p rest ih =>
    intro lib fin log h hn x hx
    rcases p with ⟨ident, m⟩
    unfold applyMerged at h
    rcases hp : processGroup lib groups ident m with e | ⟨lib1, es1⟩
    · simp only [hp] at h
      cases h
    · simp only [hp] at h
      rcases hr : applyMerged lib1 groups rest with e | ⟨lib3, es3⟩
      · simp only [hr] at h
        cases h
      · simp only [hr] at h
        cases h
        rcases processGroup_spec lib groups ident m lib1 es1 hp hn with
          ⟨ids, t, hg, hsm, hl, hn1, hframe, _, _, _⟩
        rw [ih lib1 _ _ hr hn1 x
          (fun ident' m' hmem' ids' hg' => hx ident' m' (List.mem_cons_of_mem _ hmem') ids' hg')]
        exact hframe x (hx ident m (List.mem_cons_self _ _) ids hg)

theorem applyMerged_nodup (groups : List (Ident × List Nat)) :
    ∀ (merged : List (Ident × MergedInfo)) (lib fin : ITunesLibrary) (log : List CascadeEntry),
      applyMerged lib groups merged = Except.ok (fin, log) →
      (lib.tracks.map Prod.fst).Nodup → (fin.tracks.map Prod.fst).Nodup := by
  intro merged
  induction merged with
  | nil =>
    intro lib fin log h hn
    cases h
    exact hn
  | cons p rest ih =>
    intro lib fin log h hn
    rcases p with ⟨ident, m⟩
    unfold applyMerged at h
    rcases hp : processGroup lib groups ident m with e | ⟨lib1, es1⟩
    · simp only [hp] at h
      cases h
    · simp only [hp] at h
      rcases hr : applyMerged lib1 groups rest with e | ⟨lib3, es3⟩
      · simp only [hr] at h
        cases h
      · simp only [hr] at h
        cases h
        rcases processGroup_spec lib groups ident m lib1 es1 hp hn with
          ⟨ids, t, hg, hsm, hl, hn1, _, _, _, _⟩
        exact ih lib1 _ _ hr hn1

theorem applyMerged_target (groups : List (Ident × List Nat)) :
    ∀ (merged : List (Ident × MergedInfo)) (lib fin : ITunesLibrary) (log : List CascadeEntry),
      applyMerged lib groups merged = Except.ok (fin, log) →
      (lib.tracks.map Prod.fst).Nodup →
      ∀ ident m ids t,
        (ident, m) ∈ merged →
        dlookup ident groups = Option.some ids →
        ids.Nodup →
        (merged.map Prod.fst).Nodup →
        (∀ ident' m', (ident', m') ∈ merged → ident' ≠ ident →
           ∀ ids', dlookup ident' groups = Option.some ids' → ∀ x ∈ ids, x ∉ ids') →
        dlookup m.survivor lib.tracks = Option.some t →
        m.survivor ∈ ids →
        (dlookup m.survivor fin.tracks = Option.some (mergeInto t m) ∧
         ∀ d ∈ ids, d ≠ m.survivor → dlookup d fin.tracks = Option.none) := by
  intro merged
  induction merged with
  | nil =>
    intro lib fin log h hn ident m ids t hmem
    cases hmem
  | cons p rest ih =>
    intro lib fin log h hn ident m ids t hmem hg hidsnd hfstnd hdisj ht hsm
    rcases p with ⟨ident0, m0⟩
    unfold applyMerged at h
    rcases hp : processGroup lib groups ident0 m0 with e | ⟨lib1, es1⟩
    · simp only [hp] at h
      cases h
    · simp only [hp] at h
      rcases hr : applyMerged lib1 groups rest with e | ⟨lib3, es3⟩
      · simp only [hr] at h
        cases h
      · simp only [hr] at h
        cases h
        rcases processGroup_spec lib groups ident0 m0 lib1 es1 hp hn with
          ⟨ids0, t0, hg0, hsm0, hl0, hn1, hframe0, hupd0, hdel0, hpers0⟩
        rcases List.mem_cons.mp hmem with hhead | hrest
        · -- the head is the target group
          have hident : ident0 = ident := (Prod.mk.injEq _ _ _ _).mp hhead.symm |>.1
          have hm : m0 = m := (Prod.mk.injEq _ _ _ _).mp hhead.symm |>.2
          subst hident
          subst hm
          have hids : ids0 = ids := by
            rw [hg] at hg0
            cases hg0
            rfl
          subst hids
          have ht0 : t0 = t := by
            rw [ht] at hl0
            cases hl0
            rfl
          subst ht0
          have hnotin : ∀ ident' m', (ident', m') ∈ rest →
              ∀ ids', dlookup ident' groups = Option.some ids' → m0.survivor ∉ ids' := by
            intro ident' m' hmem' ids' hg'
            have hne : ident' ≠ ident0 := by
              intro he
              subst he
              rw [List.map_cons, List.nodup_cons] at hfstnd
              exact hfstnd.1 (List.mem_map.mpr ⟨(ident', m'), hmem', rfl⟩)
            exact hdisj ident' m' (List.mem_cons_of_mem _ hmem') hne ids' hg' m0.survivor hsm
          constructor
          · rw [applyMerged_frame groups rest lib1 _ _ hr hn1 m0.survivor hnotin]
            exact hupd0 hidsnd
          · intro d hd hdne
            exact applyMerged_none_persist groups rest lib1 _ _ hr d (hdel0 d hd hdne)
        · -- the target group is in the tail
          have hne0 : ident0 ≠ ident := by
            intro he
            subst he
            rw [List.map_cons, List.nodup_cons] at hfstnd
            exact hfstnd.1 (List.mem_map.mpr ⟨(ident0, m), hrest, rfl⟩)
          have hsurv1 : dlookup m.survivor lib1.tracks = Option.some t := by
            rw [hframe0 m.survivor
              (hdisj ident0 m0 (List.mem_cons_self _ _) hne0 ids0 hg0 m.survivor hsm)]
            exact ht
          exact ih lib1 _ _ hr hn1 ident m ids t hrest hg hidsnd
            (by rw [List.map_cons, List.nodup_cons] at hfstnd; exact hfstnd.2)
            (fun ident' m' hmem' hne' ids' hg' => hdisj ident' m' (List.mem_cons_of_mem _ hmem') hne' ids' hg')
            hsurv1 hsm

end Muslytics

namespace Muslytics

theorem groupIds_from_lookup {lib : ITunesLibrary} {ident : Ident} {ids : List Nat}
    (h : dlookup ident (buildGroups lib.tracks) = Option.some ids) :
    ids = groupIds lib ident := by
  rw [buildGroups_lookup_lib] at h
  by_cases hnil : groupIds lib ident = []
  · rw [if_pos hnil] at h
    cases h
  · rw [if_neg hnil] at h
    cases h
    rfl

theorem remove_duplicates_group_effect (lib lib2 : ITunesLibrary) (log : List CascadeEntry)
    (ident : Ident)
    (hnodup : (lib.tracks.map Prod.fst).Nodup)
    (hid : ∀ p ∈ lib.tracks, (p.2 : ITunesTrack).id = p.1)
    (hdup : 2 ≤ (groupIds lib ident).length)
    (hrun : remove_duplicates lib = Except.ok (lib2, log)) :
    ∃ m t, mergeGroup lib (groupIds lib ident) = Except.ok m ∧
      dlookup m.survivor lib.tracks = Option.some t ∧
      dlookup m.survivor lib2.tracks = Option.some (mergeInto t m) ∧
      (∀ d ∈ groupIds lib ident, d ≠ m.survivor → dlookup d lib2.tracks = Option.none) ∧
      m.survivor ∈ groupIds lib ident := by
  unfold remove_duplicates at hrun
  rcases hcm : computeMerged lib (buildGroups lib.tracks) (duplicateIdents lib.tracks)
    with e | merged
  · simp only [hcm] at hrun
    cases hrun
  · simp only [hcm] at hrun
    have hnil : groupIds lib ident ≠ [] := by
      intro h
      rw [h] at hdup
      simp at hdup
    have hg : dlookup ident (buildGroups lib.tracks) = Option.some (groupIds lib ident) := by
      rw [buildGroups_lookup_lib, if_neg hnil]
    rcases computeMerged_spec lib (buildGroups lib.tracks) _ merged hcm with ⟨hmap, hentries⟩
    have hin : ident ∈ merged.map Prod.fst := by
      rw [hmap]
      exact mem_duplicateIdents.mpr hdup
    rcases List.mem_map.mp hin with ⟨p, hp, hpfst⟩
    rcases hentries p.1 p.2 (by rcases p with ⟨a, b⟩; exact hp) with ⟨ids0, hg0, hm0⟩
    rw [hpfst] at hg0
    rw [hg] at hg0
    cases hg0
    have hpm : (ident, p.2) ∈ merged := by
      rw [← hpfst]
      simpa using hp
    have hts := getTracks_group lib hnodup ident
    rcases mergeGroup_spec lib (groupIds lib ident) (groupTracks lib ident) p.2 hm0 hts with
      ⟨_, _, _, _, hsurvmem⟩
    rw [getTracks_map_id hid hts] at hsurvmem
    rcases mem_groupIds.mp hsurvmem with ⟨t, htmem, _⟩
    have ht : dlookup p.2.survivor lib.tracks = Option.some t :=
      dlookup_eq_some_of_mem hnodup htmem
    have hdisj : ∀ ident' m', (ident', m') ∈ merged → ident' ≠ ident →
        ∀ ids', dlookup ident' (buildGroups lib.tracks) = Option.some ids' →
        ∀ x ∈ groupIds lib ident, x ∉ ids' := by
      intro ident' m' _ hne ids' hg' x hx hx'
      rw [groupIds_from_lookup hg'] at hx'
      exact groupIds_disjoint hnodup (fun he => hne he.symm) hx hx'
    have hfstnd : (merged.map Prod.fst).Nodup := by
      rw [hmap]
      exact duplicateIdents_nodup lib.tracks
    have := applyMerged_target (buildGroups lib.tracks) merged lib lib2 log hrun hnodup
      ident p.2 (groupIds lib ident) t hpm
      hg (groupIds_nodup hnodup ident) hfstnd hdisj ht hsurvmem
    exact ⟨p.2, t, hm0, ht, this.1, this.2, hsurvmem⟩

end Muslytics

namespace Muslytics

/-- **C1.** For every duplicate group — the tracks whose duplicate key
(display name paired with the artist names joined in list order by ',')
equals a fixed identifier with at least two members — a successful
`remove_duplicates` run keeps one track of the group and stores on it a
play count equal to the sum of the group's play counts, a rating equal to
the arithmetic mean of the group's non-null ratings (null when every
member's rating is null), and a loved flag equal to the disjunction of the
group's flags. -/
theorem c1_merged_statistics (lib lib2 : ITunesLibrary) (log : List CascadeEntry)
    (ident : Ident)
    (hnodup : (lib.tracks.map Prod.fst).Nodup)
    (hid : ∀ p ∈ lib.tracks, (p.2 : ITunesTrack).id = p.1)
    (hdup : 2 ≤ (groupIds lib ident).length)
    (hrun : remove_duplicates lib = Except.ok (lib2, log)) :
    ∃ sid t, sid ∈ groupIds lib ident ∧
      dlookup sid lib.tracks = Option.some t ∧
      dlookup sid lib2.tracks = Option.some
        { t with
          plays := ((groupTracks lib ident).map (fun tr => tr.plays)).sum,
          rating := if (groupTracks lib ident).filterMap (fun tr => tr.rating) = [] then
              Option.none
            else Option.some (((groupTracks lib ident).filterMap (fun tr => tr.rating)).sum /
              (((groupTracks lib ident).filterMap (fun tr => tr.rating)).length : ℚ)),
          loved := (groupTracks lib ident).any (fun tr => tr.loved) } := by
  rcases remove_duplicates_group_effect lib lib2 log ident hnodup hid hdup hrun with
    ⟨m, t, hm, ht, ht2, _, hmem⟩
  have hts := getTracks_group lib hnodup ident
  rcases mergeGroup_spec lib (groupIds lib ident) (groupTracks lib ident) m hm hts with
    ⟨h1, h2, h3, _, _⟩
  refine ⟨m.survivor, t, hmem, ht, ?_⟩
  rw [ht2]
  unfold mergeInto
  rw [h1, h2, h3]

/-- Witness for C1: on the concrete two-track library `dupLib` the group of
the key ("Song", "A") is merged by `remove_duplicates` into one stored
track carrying the summed plays, the mean rating and the disjoined flag. -/
theorem c1_merged_statistics_witness :
    ∃ sid t, sid ∈ groupIds dupLib ("Song", "A") ∧
      dlookup sid dupLib.tracks = Option.some t ∧
      dlookup sid dupLib2.tracks = Option.some
        { t with
          plays := ((groupTracks dupLib ("Song", "A")).map (fun tr => tr.plays)).sum,
          rating := if (groupTracks dupLib ("Song", "A")).filterMap (fun tr => tr.rating) = []
              then Option.none
            else Option.some
              (((groupTracks dupLib ("Song", "A")).filterMap (fun tr => tr.rating)).sum /
              (((groupTracks dupLib ("Song", "A")).filterMap (fun tr => tr.rating)).length : ℚ)),
          loved := (groupTracks dupLib ("Song", "A")).any (fun tr => tr.loved) } :=
  c1_merged_statistics dupLib dupLib2 dupLog ("Song", "A")
    (by decide) (by decide) (by decide) (by decide)

/-- **C2.** For every duplicate group with at least two members, a
successful `remove_duplicates` run picks as survivor exactly the track
selected by the claimed preference fold — the first duplicate seeds the
preference, a later duplicate on a different album takes it iff its album
year is strictly more recent or the years are equal and its album currently
holds strictly more tracks — writes the merged statistics onto that track,
and deletes every other track of the group. -/
theorem c2_survivor_selection (lib lib2 : ITunesLibrary) (log : List CascadeEntry)
    (ident : Ident)
    (hnodup : (lib.tracks.map Prod.fst).Nodup)
    (hid : ∀ p ∈ lib.tracks, (p.2 : ITunesTrack).id = p.1)
    (hdup : 2 ≤ (groupIds lib ident).length)
    (hrun : remove_duplicates lib = Except.ok (lib2, log)) :
    ∃ m t, mergeGroup lib (groupIds lib ident) = Except.ok m ∧
      claimedSurvivor lib.albums (groupTracks lib ident) = Option.some m.survivor ∧
      m.survivor ∈ groupIds lib ident ∧
      dlookup m.survivor lib.tracks = Option.some t ∧
      dlookup m.survivor lib2.tracks = Option.some (mergeInto t m) ∧
      ∀ d ∈ groupIds lib ident, d ≠ m.survivor → dlookup d lib2.tracks = Option.none := by
  rcases remove_duplicates_group_effect lib lib2 log ident hnodup hid hdup hrun with
    ⟨m, t, hm, ht, ht2, hdel, hmem⟩
  have hts := getTracks_group lib hnodup ident
  rcases mergeGroup_spec lib (groupIds lib ident) (groupTracks lib ident) m hm hts with
    ⟨_, _, _, hcl, _⟩
  exact ⟨m, t, hm, hcl, hmem, ht, ht2, hdel⟩

/-- Witness for C2: on `dupLib` the survivor of the ("Song", "A") group is
the one the claimed preference fold selects (track 2, the 2010 album's
duplicate), the merged statistics are written onto it, and track 1 is
deleted. -/
theorem c2_survivor_selection_witness :
    ∃ m t, mergeGroup dupLib (groupIds dupLib ("Song", "A")) = Except.ok m ∧
      claimedSurvivor dupLib.albums (groupTracks dupLib ("Song", "A")) =
        Option.some m.survivor ∧
      m.survivor ∈ groupIds dupLib ("Song", "A") ∧
      dlookup m.survivor dupLib.tracks = Option.some t ∧
      dlookup m.survivor dupLib2.tracks = Option.some (mergeInto t m) ∧
      ∀ d ∈ groupIds dupLib ("Song", "A"), d ≠ m.survivor →
        dlookup d dupLib2.tracks = Option.none :=
  c2_survivor_selection dupLib dupLib2 dupLog ("Song", "A")
    (by decide) (by decide) (by decide) (by decide)

/-- **C9.** The cascade for one discarded track — remove the track, remove
its id from its album's member set, and if the album emptied delete the
album and walk its artist set — returns normally under track-side
consistency alone (the track is stored, its album is stored, and the
album's member set holds the track's id): no hypothesis on the artists
dict is needed, because both artist-side removals are guarded, so an artist
already removed by an earlier cascade step, or an album key already absent
from an artist's set, is skipped rather than raising.  The cascade touches
exactly one album (the discarded track's), and the artists visited are the
emptied album's artist set, each exactly once (no artist is visited at all
when the album did not empty). -/
theorem c9_cascade_totality (lib : ITunesLibrary) (did : Nat) (t : ITunesTrack)
    (alb : ITunesAlbum)
    (ht : dlookup did lib.tracks = Option.some t)
    (hal : dlookup t.album_id lib.albums = Option.some alb)
    (hmem : did ∈ alb.tracks)
    (hnd : alb.artists.Nodup) :
    ∃ lib2 e, cascadeTrack lib did = Except.ok (lib2, e) ∧
      e.track = did ∧ e.album = t.album_id ∧
      e.artistsVisited = (if eraseFirst did alb.tracks = [] then alb.artists else []) ∧
      e.artistsVisited.Nodup := by
  unfold cascadeTrack
  simp only [ht]
  unfold cascadeTrackAlbum
  simp only [hal]
  rw [if_pos hmem]
  by_cases hnil : eraseFirst did alb.tracks = []
  · rw [if_pos hnil]
    exact ⟨_, _, rfl, rfl, rfl, by rw [if_pos hnil], hnd⟩
  · rw [if_neg hnil]
    exact ⟨_, _, rfl, rfl, rfl, by rw [if_neg hnil], List.nodup_nil⟩

/-- Witness for C9: in `c9lib` artist "B" is already gone from the artists
dict, yet cascading the discard of track 5 (which empties album "Z")
returns normally, visiting "B" once. -/
theorem c9_cascade_totality_witness :
    ∃ lib2 e, cascadeTrack c9lib 5 = Except.ok (lib2, e) ∧
      e.track = 5 ∧ e.album = ("Z", 1999) ∧
      e.artistsVisited = (if eraseFirst 5 [5] = [] then ["B"] else []) ∧
      e.artistsVisited.Nodup :=
  c9_cascade_totality c9lib 5 ⟨5, "T", ["B"], Option.none, 0, false, 0, ("Z", 1999)⟩
    ⟨"Z", 1999, [5], ["B"]⟩ (by decide) (by decide) (by decide) (by decide)

theorem mem_ddelete {κ β : Type} [DecidableEq κ] {k : κ} {l : List (κ × β)} {p : κ × β}
    (h : p ∈ ddelete k l) : p ∈ l := by
  induction l with
  | nil => exact absurd h (List.not_mem_nil p)
  | cons q rest ih =>
    rcases q with ⟨k2, v2⟩
    unfold ddelete at h
    by_cases hk : k2 = k
    · rw [if_pos hk] at h
      exact List.mem_cons_of_mem _ h
    · rw [if_neg hk] at h
      rcases List.mem_cons.mp h with h2 | h2
      · exact List.mem_cons.mpr (Or.inl h2)
      · exact List.mem_cons_of_mem _ (ih h2)

theorem mem_dupdate {κ β : Type} [DecidableEq κ] {k : κ} {v : β} {l : List (κ × β)} {p : κ × β}
    (h : p ∈ dupdate k v l) : p = (k, v) ∨ p ∈ l := by
  induction l with
  | nil =>
    unfold dupdate at h
    exact absurd h (List.not_mem_nil p)
  | cons q rest ih =>
    rcases q with ⟨k2, v2⟩
    unfold dupdate at h
    by_cases hk : k2 = k
    · rw [if_pos hk] at h
      rcases List.mem_cons.mp h with h2 | h2
      · exact Or.inl (by rw [h2, hk])
      · exact Or.inr (List.mem_cons_of_mem _ h2)
    · rw [if_neg hk] at h
      rcases List.mem_cons.mp h with h2 | h2
      · exact Or.inr (List.mem_cons.mpr (Or.inl h2))
      · rcases ih h2 with h3 | h3
        · exact Or.inl h3
        · exact Or.inr (List.mem_cons_of_mem _ h3)

/-- The guarded artist loop preserves artist-side nonemptiness: an artist
entry it leaves in the dict either was there before or was rewritten with
the nonempty remainder of its album set. -/
theorem cascadeArtists_nonempty (album_id : AlbumId) :
    ∀ (names : List String) (artists : List (String × ITunesArtist)),
      (∀ p ∈ artists, (p.2 : ITunesArtist).albums ≠ []) →
      ∀ p ∈ cascadeArtists artists album_id names, (p.2 : ITunesArtist).albums ≠ [] := by
  intro names
  induction names with
  | nil =>
    intro artists h p hp
    exact h p hp
  | cons an rest ih =>
    intro artists h p hp
    unfold cascadeArtists at hp
    rcases hlk : dlookup an artists with _ | ar
    · simp only [hlk] at hp
      exact ih artists h p hp
    · simp only [hlk] at hp
      by_cases hin : album_id ∈ ar.albums
      · rw [if_pos hin] at hp
        by_cases hnil : eraseFirst album_id ar.albums = []
        · rw [if_pos hnil] at hp
          exact ih _ (fun q hq => h q (mem_ddelete hq)) p hp
        · rw [if_neg hnil] at hp
          refine ih _ ?_ p hp
          intro q hq
          rcases mem_dupdate hq with he | hq2
          · rw [he]
            exact hnil
          · exact h q hq2
      · rw [if_neg hin] at hp
        exact ih artists h p hp

/-- The cascade for one discarded track preserves both nonemptiness
invariants: an album that empties is deleted on the spot, an updated album
keeps a nonempty member set, and the artist loop preserves the artist
side. -/
theorem cascadeTrack_nonempty (lib : ITunesLibrary) (did : Nat)
    (lib2 : ITunesLibrary) (e : CascadeEntry)
    (h : cascadeTrack lib did = Except.ok (lib2, e))
    (halb : ∀ p ∈ lib.albums, (p.2 : ITunesAlbum).tracks ≠ [])
    (hart : ∀ p ∈ lib.artists, (p.2 : ITunesArtist).albums ≠ []) :
    (∀ p ∈ lib2.albums, (p.2 : ITunesAlbum).tracks ≠ []) ∧
    (∀ p ∈ lib2.artists, (p.2 : ITunesArtist).albums ≠ []) := by
  unfold cascadeTrack at h
  rcases ht : dlookup did lib.tracks with _ | t
  · simp only [ht] at h
    cases h
  · simp only [ht] at h
    unfold cascadeTrackAlbum at h
    rcases hal : dlookup t.album_id lib.albums with _ | alb
    · simp only [hal] at h
      cases h
    · simp only [hal] at h
      by_cases hmem : did ∈ alb.tracks
      · rw [if_pos hmem] at h
        by_cases hnil : eraseFirst did alb.tracks = []
        · rw [if_pos hnil] at h
          injection h with h1
          injection h1 with h2 h3
          subst h2
          exact ⟨fun p hp => halb p (mem_ddelete hp),
            fun p hp => cascadeArtists_nonempty t.album_id alb.artists lib.artists hart p hp⟩
        · rw [if_neg hnil] at h
          injection h with h1
          injection h1 with h2 h3
          subst h2
          refine ⟨?_, hart⟩
          intro p hp
          rcases mem_dupdate hp with he | hp2
          · rw [he]
            exact hnil
          · exact halb p hp2
      · rw [if_neg hmem] at h
        cases h

/-- The cascade over a list of discarded ids preserves both nonemptiness
invariants. -/
theorem cascadeList_nonempty :
    ∀ (ds : List Nat) (lib lib2 : ITunesLibrary) (es : List CascadeEntry),
      cascadeList lib ds = Except.ok (lib2, es) →
      (∀ p ∈ lib.albums, (p.2 : ITunesAlbum).tracks ≠ []) →
      (∀ p ∈ lib.artists, (p.2 : ITunesArtist).albums ≠ []) →
      (∀ p ∈ lib2.albums, (p.2 : ITunesAlbum).tracks ≠ []) ∧
      (∀ p ∈ lib2.artists, (p.2 : ITunesArtist).albums ≠ []) := by
  intro ds
  induction ds with
  | nil =>
    intro lib lib2 es h halb hart
    unfold cascadeList at h
    injection h with h1
    injection h1 with h2 h3
    subst h2
    exact ⟨halb, hart⟩
  | cons d rest ih =>
    intro lib lib2 es h halb hart
    unfold cascadeList at h
    rcases h1 : cascadeTrack lib d with e1 | p1
    · simp only [h1] at h
      cases h
    · simp only [h1] at h
      rcases p1 with ⟨libm, em⟩
      rcases h2 : cascadeList libm rest with e2 | p2
      · simp only [h2] at h
        cases h
      · simp only [h2] at h
        rcases p2 with ⟨libf, esf⟩
        injection h with h3
        injection h3 with h4 h5
        subst h4
        rcases cascadeTrack_nonempty lib d libm em h1 halb hart with ⟨ha2, hr2⟩
        exact ih libm libf esf h2 ha2 hr2

/-- One group's phase-C step preserves both nonemptiness invariants: the
survivor update touches only the tracks dict, and the cascade preserves
them. -/
theorem processGroup_nonempty (lib : ITunesLibrary) (groups : List (Ident × List Nat))
    (ident : Ident) (m : MergedInfo) (lib2 : ITunesLibrary) (es : List CascadeEntry)
    (h : processGroup lib groups ident m = Except.ok (lib2, es))
    (halb : ∀ p ∈ lib.albums, (p.2 : ITunesAlbum).tracks ≠ [])
    (hart : ∀ p ∈ lib.artists, (p.2 : ITunesArtist).albums ≠ []) :
    (∀ p ∈ lib2.albums, (p.2 : ITunesAlbum).tracks ≠ []) ∧
    (∀ p ∈ lib2.artists, (p.2 : ITunesArtist).albums ≠ []) := by
  unfold processGroup at h
  rcases hg : dlookup ident groups with _ | ids
  · simp only [hg] at h
    cases h
  · simp only [hg] at h
    by_cases hsm : m.survivor ∈ ids
    · rw [if_pos hsm] at h
      rcases ht : dlookup m.survivor lib.tracks with _ | t
      · simp only [ht] at h
        cases h
      · simp only [ht] at h
        exact cascadeList_nonempty (eraseFirst m.survivor ids) _ lib2 es h halb hart
    · rw [if_neg hsm] at h
      cases h

/-- Phase C over all merged groups preserves both nonemptiness
invariants. -/
theorem applyMerged_nonempty (groups : List (Ident × List Nat)) :
    ∀ (ms : List (Ident × MergedInfo)) (lib lib2 : ITunesLibrary) (es : List CascadeEntry),
      applyMerged lib groups ms = Except.ok (lib2, es) →
      (∀ p ∈ lib.albums, (p.2 : ITunesAlbum).tracks ≠ []) →
      (∀ p ∈ lib.artists, (p.2 : ITunesArtist).albums ≠ []) →
      (∀ p ∈ lib2.albums, (p.2 : ITunesAlbum).tracks ≠ []) ∧
      (∀ p ∈ lib2.artists, (p.2 : ITunesArtist).albums ≠ []) := by
  intro ms
  induction ms with
  | nil =>
    intro lib lib2 es h halb hart
    unfold applyMerged at h
    injection h with h1
    injection h1 with h2 h3
    subst h2
    exact ⟨halb, hart⟩
  | cons q rest ih =>
    intro lib lib2 es h halb hart
    rcases q with ⟨ident, m⟩
    unfold applyMerged at h
    rcases h1 : processGroup lib groups ident m with e1 | p1
    · simp only [h1] at h
      cases h
    · simp only [h1] at h
      rcases p1 with ⟨libm, es1⟩
      rcases h2 : applyMerged libm groups rest with e2 | p2
      · simp only [h2] at h
        cases h
      · simp only [h2] at h
        rcases p2 with ⟨libf, es2⟩
        injection h with h3
        injection h3 with h4 h5
        subst h4
        rcases processGroup_nonempty lib groups ident m libm es1 h1 halb hart with ⟨ha2, hr2⟩
        exact ih libm libf es2 h2 ha2 hr2

/-- **C3, counterexample.** `c3lib` is referentially consistent on entry,
`remove_duplicates` returns normally leaving it unchanged, and the
returned library still holds an album with an empty track set: cascade
completeness does not hold for every referentially consistent library,
because the cascade only removes an album the instant a discarded track
empties it — an album (or artist) whose set was already empty on entry is
never visited. -/
theorem c3_cascade_completeness_counterexample :
    RefConsistent c3lib ∧
    remove_duplicates c3lib = Except.ok (c3lib, []) ∧
    ¬ (∀ p ∈ c3lib.albums, (p.2 : ITunesAlbum).tracks ≠ []) := by
  refine ⟨?_, by decide, by decide⟩
  intro p hp
  exact absurd hp (List.not_mem_nil p)

/-- **C3, amended.** For every library in which, on entry, every album's
track set and every artist's album set is nonempty, if `remove_duplicates`
returns normally then every album still present has a nonempty track set
and every artist still present has a nonempty album set: albums and
artists are removed the instant their sets empty, and every rewrite stores
a nonempty set. -/
theorem c3_cascade_completeness (lib lib2 : ITunesLibrary) (log : List CascadeEntry)
    (halb : ∀ p ∈ lib.albums, (p.2 : ITunesAlbum).tracks ≠ [])
    (hart : ∀ p ∈ lib.artists, (p.2 : ITunesArtist).albums ≠ [])
    (hrun : remove_duplicates lib = Except.ok (lib2, log)) :
    (∀ p ∈ lib2.albums, (p.2 : ITunesAlbum).tracks ≠ []) ∧
    (∀ p ∈ lib2.artists, (p.2 : ITunesArtist).albums ≠ []) := by
  unfold remove_duplicates at hrun
  rcases hcm : computeMerged lib (buildGroups lib.tracks) (duplicateIdents lib.tracks)
    with e | merged
  · simp only [hcm] at hrun
    cases hrun
  · simp only [hcm] at hrun
    exact applyMerged_nonempty (buildGroups lib.tracks) merged lib lib2 log hrun halb hart

/-- Witness for the amended C3: the two-track duplicate library `dupLib`
enters with nonempty album and artist sets, and after `remove_duplicates`
(which deletes the emptied album "X") every remaining album and artist
set is still nonempty. -/
theorem c3_cascade_completeness_witness :
    (∀ p ∈ dupLib2.albums, (p.2 : ITunesAlbum).tracks ≠ []) ∧
    (∀ p ∈ dupLib2.artists, (p.2 : ITunesArtist).albums ≠ []) :=
  c3_cascade_completeness dupLib dupLib2 dupLog (by decide) (by decide) (by decide)

end Muslytics
